import Mathlib

/-!
Verification development for the LA28 schedule pipeline.

The Python sources are shallowly embedded as Lean definitions:

* multi-line text cells are modelled as `List String` of their lines
  (Python reads them as one string and splits on a newline; splitting never
  yields an empty list, so the empty-list case is handled like a cell whose
  only line is empty);
* Python substring tests (`pat in line`) become `strHas`, an executable
  substring check on the underlying character lists;
* timezone-aware datetimes become `LocalDT` (ordinal day of 2028, minutes
  since local midnight, and the minutes that must be added to local time to
  reach UTC); Python compares aware datetimes by their UTC instant, which is
  `LocalDT.utc`;
* fallible parsing (functions that can raise `ValueError`) returns `Option`;
* the SQL store is a record of lists; `ORDER BY` and Python `sorted` are both
  stable sorts and are modelled with `List.insertionSort`;
* mutable dict counters become explicit `String → Nat` state.
-/

namespace LA28

/-- Python substring containment `pat in s`, on character lists. -/
def hasSubstr (pat : List Char) (s : List Char) : Bool :=
  match s with
  | [] => pat == []
  | _ :: t => pat.isPrefixOf s || hasSubstr pat t

/-- Python substring containment on strings. -/
def strHas (pat s : String) : Bool :=
  hasSubstr pat.toList s.toList

/-- Python `s.replace(chr(10), chr(32))`: newline-to-space normalisation. -/
def replaceNL (s : String) : String :=
  String.mk (s.toList.map (fun c => if c = Char.ofNat 10 then Char.ofNat 32 else c))

/-- Split a character list at every occurrence of `c` (like Python `str.split`
on a single-character separator: always returns at least one piece). -/
def splitOnChar (c : Char) : List Char → List (List Char)
  | [] => [[]]
  | x :: t =>
    let r := splitOnChar c t
    if x = c then [] :: r
    else
      match r with
      | [] => [[x]]
      | h :: t2 => (x :: h) :: t2

/-- Value of an all-digit character list, `none` if empty or non-digit. -/
def digitsVal (s : List Char) : Option Nat :=
  if s ≠ [] && s.all Char.isDigit then
    some (s.foldl (fun acc c => acc * 10 + (c.toNat - 48)) 0)
  else none

/-! String constants appearing in the Python sources. -/

def sAndOr : String := "and/or"
def sOr : String := "or"
def sMen : String := "Men"
def sWomen : String := "Women"
def sMixed : String := "Mixed"
def sFinal : String := "Final"
def sGoldMedal : String := "Gold Medal"
def sFinalB : String := "Final B"
def sFinalC : String := "Final C"
def sFinalD : String := "Final D"
def sBronze : String := "Bronze"
def sBronzeMedal : String := "Bronze Medal"
def sSemifinal : String := "Semifinal"
def sQuarterfinal : String := "Quarterfinal"
def sPreliminary : String := "Preliminary"
def sQualification : String := "Qualification"
def sHeats : String := "Heats"
def sPool : String := "Pool"
def sRepechage : String := "Repechage"
def sNA : String := "N/A"
def sTBD : String := "TBD"
def sCT : String := "(CT)"
def sNotTicketed : String := "Not Ticketed"
def sT0000 : String := "00:00"
def sT2359 : String := "23:59"
def tzCT : String := "America/Chicago"
def tzPT : String := "America/Los_Angeles"

/-- Embedding of `_parse_event_type` from `src/la28/parsing.py` (lines 29-48):
the per-line round-type classifier used by the database loader. -/
def parse_event_type (line : String) (session_type : String) (is_single : Bool) :
    String :=
  if is_single then replaceNL session_type
  else if strHas sFinal line || strHas sGoldMedal line then
    if strHas sFinalB line || strHas sFinalC line || strHas sFinalD line then
      sPreliminary
    else sFinal
  else if strHas sBronze line || strHas sBronzeMedal line then sBronze
  else if strHas sSemifinal line then sSemifinal
  else if strHas sQuarterfinal line then sQuarterfinal
  else if strHas sPreliminary line || strHas sQualification line ||
      strHas sHeats line || strHas sPool line then sPreliminary
  else if strHas sRepechage line then sRepechage
  else sNA

/-- Embedding of `_parse_sex` from `src/la28/parsing.py` (lines 51-63). -/
def parse_sex (line : String) : String :=
  if strHas sAndOr line then sAndOr
  else if strHas sOr line then sOr
  else if strHas sMen line && !strHas sWomen line then sMen
  else if strHas sWomen line && !strHas sMen line then sWomen
  else if strHas sMixed line then sMixed
  else sAndOr

/-- Embedding of the inline round-type classifier of `Session.from_dict` in
`read.py` (lines 168-185). Python operator precedence makes the condition
`A or B and not C` parse as `A or (B and (not C))`, which is translated
literally here. -/
def read_event_type (line : String) (session_type : String) (is_single : Bool) :
    String :=
  if is_single then replaceNL session_type
  else if strHas sFinal line ||
      (strHas sGoldMedal line &&
        !(strHas sFinalB line || strHas sFinalC line || strHas sFinalD line)) then
    sFinal
  else if strHas sBronze line || strHas sBronzeMedal line then sBronze
  else if strHas sSemifinal line then sSemifinal
  else if strHas sQuarterfinal line then sQuarterfinal
  else if strHas sPreliminary line || strHas sQualification line ||
      strHas sHeats line || strHas sPool line then sPreliminary
  else if strHas sRepechage line then sRepechage
  else sNA

/-! Substring helper lemmas. -/

theorem hasSubstr_append_left {p q s : List Char} (h : hasSubstr (p ++ q) s = true) :
    hasSubstr p s = true := by
  induction s with
  | nil =>
    simp only [hasSubstr, beq_iff_eq, List.append_eq_nil] at h ⊢
    exact h.1
  | cons a t ih =>
    simp only [hasSubstr, Bool.or_eq_true] at h ⊢
    rcases h with h | h
    · left
      rw [List.isPrefixOf_iff_prefix] at h ⊢
      exact List.IsPrefix.trans (List.prefix_append p q) h
    · exact Or.inr (ih h)

/-- A line containing the text of `sFinalB`, `sFinalC` or `sFinalD`
contains the text of `sFinal`. -/
theorem strHas_final_of_BCD {line : String}
    (h : strHas sFinalB line = true ∨ strHas sFinalC line = true ∨
      strHas sFinalD line = true) :
    strHas sFinal line = true := by
  rcases h with h | h | h <;> exact hasSubstr_append_left h

/-- C1: for a description block with more than one line, the per-line
round-type classifier `_parse_event_type` in parsing.py classifies any line
containing one of the texts of `sFinalB`, `sFinalC`, `sFinalD` as
"Preliminary" and never as "Final"; in particular the line
"Women's 100m Final B" yields type "Preliminary". -/
theorem C1_finalBCD_preliminary (lines : List String) (line session_type : String)
    (hlen : 1 < lines.length)
    (h : strHas sFinalB line = true ∨ strHas sFinalC line = true ∨
      strHas sFinalD line = true) :
    parse_event_type line session_type (lines.length == 1) = sPreliminary ∧
      parse_event_type line session_type (lines.length == 1) ≠ sFinal ∧
      parse_event_type ("Women\x27s 100m Final B") sNA false =
        sPreliminary := by
  have hsingle : (lines.length == 1) = false :=
    beq_eq_false_iff_ne.mpr (by omega)
  have hF : strHas sFinal line = true := strHas_final_of_BCD h
  have hBCD : (strHas sFinalB line || strHas sFinalC line ||
      strHas sFinalD line) = true := by
    rcases h with h | h | h <;> simp [h]
  have key : parse_event_type line session_type false = sPreliminary := by
    simp [parse_event_type, hF, hBCD]
  refine ⟨?_, ?_, ?_⟩
  · rw [hsingle]; exact key
  · rw [hsingle, key]; decide
  · decide

/-- C1 witness: a concrete two-line block and the concrete line from the
claim, with the hypotheses discharged by computation. -/
theorem C1_witness :
    1 < (["Swimming", "Diving"] : List String).length ∧
      parse_event_type ("Women\x27s 100m Final B") sFinal
        ((["Swimming", "Diving"] : List String).length == 1) = sPreliminary :=
  ⟨by decide,
    (C1_finalBCD_preliminary (["Swimming", "Diving"]) ("Women\x27s 100m Final B")
      sFinal (by decide) (Or.inl (by decide))).1⟩

/-- C5: the sex classifier `_parse_sex` in parsing.py applies, first match
wins with case-sensitive substring search: "and/or" then "or" then
Men-without-Women then Women-without-Men then "Mixed", defaulting to
"and/or"; in particular "Men's and Women's Doubles" gives "and/or",
"Men's Singles" gives "Men" and "Mixed Doubles" gives "Mixed". -/
theorem C5_parse_sex_rules (line : String) :
    (strHas sAndOr line = true → parse_sex line = sAndOr) ∧
    (strHas sAndOr line = false → strHas sOr line = true →
      parse_sex line = sOr) ∧
    (strHas sAndOr line = false → strHas sOr line = false →
      strHas sMen line = true → strHas sWomen line = false →
      parse_sex line = sMen) ∧
    (strHas sAndOr line = false → strHas sOr line = false →
      strHas sWomen line = true → strHas sMen line = false →
      parse_sex line = sWomen) ∧
    (strHas sAndOr line = false → strHas sOr line = false →
      (strHas sMen line && !strHas sWomen line) = false →
      (strHas sWomen line && !strHas sMen line) = false →
      strHas sMixed line = true → parse_sex line = sMixed) ∧
    (strHas sAndOr line = false → strHas sOr line = false →
      (strHas sMen line && !strHas sWomen line) = false →
      (strHas sWomen line && !strHas sMen line) = false →
      strHas sMixed line = false → parse_sex line = sAndOr) ∧
    parse_sex ("Men\x27s and Women\x27s Doubles") = sAndOr ∧
    parse_sex ("Men\x27s Singles") = sMen ∧
    parse_sex ("Mixed Doubles") = sMixed := by
  refine ⟨?_, ?_, ?_, ?_, ?_, ?_, by decide, by decide, by decide⟩
  · intro h1; simp [parse_sex, h1]
  · intro h1 h2; simp [parse_sex, h1, h2]
  · intro h1 h2 h3 h4; simp [parse_sex, h1, h2, h3, h4]
  · intro h1 h2 h3 h4; simp [parse_sex, h1, h2, h3, h4]
  · intro h1 h2 h3 h4 h5; simp [parse_sex, h1, h2, h3, h4, h5]
  · intro h1 h2 h3 h4 h5; simp [parse_sex, h1, h2, h3, h4, h5]

/-- C5 witness: the first-match rule and the default rule applied at
concrete lines. -/
theorem C5_witness :
    parse_sex sAndOr = sAndOr ∧ parse_sex ("Team Relay") = sAndOr :=
  ⟨(C5_parse_sex_rules sAndOr).1 (by decide),
    (C5_parse_sex_rules ("Team Relay")).2.2.2.2.2.1 (by decide) (by decide)
      (by decide) (by decide) (by decide)⟩

/-- C6: in the inline round-type classifier of `Session.from_dict` in
read.py, the `not any(...)` guard binds only to the Gold-Medal disjunct, so
for a multi-line block a line containing "Final" together with one of
"Final B", "Final C", "Final D" is still classified "Final". -/
theorem C6_read_final_guard (line session_type : String)
    (hF : strHas sFinal line = true)
    (_hBCD : strHas sFinalB line = true ∨ strHas sFinalC line = true ∨
      strHas sFinalD line = true) :
    read_event_type line session_type false = sFinal := by
  simp [read_event_type, hF]

/-- C6 witness: the concrete line "Women's 100m Final B" is classified
"Final" by the read.py classifier (contrast with parsing.py). -/
theorem C6_witness :
    read_event_type ("Women\x27s 100m Final B") sNA false = sFinal :=
  C6_read_final_guard ("Women\x27s 100m Final B") sNA (by decide)
    (Or.inl (by decide))

/-! Time and date resolution (`parsing.py` lines 16-26 and 82-92). -/

/-- A timezone-aware local datetime: ordinal day within 2028, minutes since
local midnight, and the minutes added to local time to reach UTC (300 for
America/Chicago, 420 for America/Los_Angeles during the games). -/
structure LocalDT where
  day : Nat
  minute : Nat
  offset : Nat
deriving DecidableEq

/-- UTC instant in minutes; Python compares aware datetimes by this. -/
def LocalDT.utc (t : LocalDT) : Nat :=
  t.day * 1440 + t.minute + t.offset

def weekdayNames : List String :=
  ["Monday", "Tuesday", "Wednesday", "Thursday", "Friday", "Saturday",
   "Sunday"]

def monthNames : List String :=
  ["January", "February", "March", "April", "May", "June", "July", "August",
   "September", "October", "November", "December"]

/-- Month lengths of 2028 (a leap year). -/
def monthLengths : List Nat := [31, 29, 31, 30, 31, 30, 31, 31, 30, 31, 30, 31]

/-- strptime %d: one or two digits, day at least 1 (month bound checked by
the caller against the month length). -/
def parseDayNum (s : List Char) : Option Nat :=
  if s.length ≤ 2 then
    match digitsVal s with
    | some d => if 1 ≤ d then some d else none
    | none => none
  else none

/-- Embedding of `datetime.strptime(text, "%A, %B %d")` for the fixed year
2028, returning the ordinal day of the year. -/
def dateOrdinal (s : String) : Option Nat :=
  match splitOnChar (',') s.toList with
  | [wd, rest] =>
    match rest with
    | sp :: md =>
      if (sp == (' ')) && weekdayNames.contains (String.mk wd) then
        match splitOnChar (' ') md with
        | [mon, d] =>
          match monthNames.findIdx? (fun m => m == String.mk mon),
              parseDayNum d with
          | some mi, some dd =>
            if dd ≤ monthLengths.getD mi 0 then
              some ((monthLengths.take mi).sum + dd)
            else none
          | _, _ => none
        | _ => none
      else none
    | [] => none
  | _ => none

/-- Embedding of `datetime.strptime(text, "%H:%M")`, returning minutes since
midnight. -/
def parseHM (s : String) : Option Nat :=
  match splitOnChar (':') s.toList with
  | [h, m] =>
    if h.length ≤ 2 && m.length ≤ 2 then
      match digitsVal h, digitsVal m with
      | some hh, some mm =>
        if hh ≤ 23 && mm ≤ 59 then some (hh * 60 + mm) else none
      | _, _ => none
    else none
  | _ => none

/-- Embedding of `_parse_time_cell` (parsing.py lines 20-26): first line of
the cell, an override pair when that line is "TBD", and whether any later
line carries the "(CT)" marker. -/
def parseTimeCell (cell : List String) : String × Option String × Bool :=
  let l0 := cell.headD ("")
  let ct := (cell.drop 1).any (fun line => strHas sCT line)
  if l0 == sTBD then (sT0000, some sT2359, ct) else (l0, none, ct)

/-! Data model (`src/la28/models.py`). Key fields are `Option String`
because the Python attributes can transiently hold None (which the
`get_or_create_*` helpers in database.py in fact produce). Numeric geo
payloads are modelled as `Int` values copied verbatim. -/

structure Zone where
  zone : Option String
  description : Option String := none
deriving DecidableEq

structure Venue where
  venue : Option String
  zone : Option String
  address : Option String := none
  capacity : Option Nat := none
  latitude : Option Int := none
  longitude : Option Int := none
  in_okc : Bool := false
deriving DecidableEq

structure Sport where
  sport : Option String
  description : Option String := none
  icon : Option String := none
deriving DecidableEq

structure Session where
  code : String
  day : Nat
  sport : String
  venue : String
  type : String
  starts_at : LocalDT
  ends_at : LocalDT
  timezone : String
  ticketed : Bool
  session_number : Option Nat := none
  total_sessions : Option Nat := none
  sport_session_number : Option Nat := none
  total_sport_sessions : Option Nat := none
deriving DecidableEq

structure Event where
  code : String
  sex : String
  description : String
  type : String
  order_in_session : Nat
  total_in_session : Nat
  event_number : Option Nat := none
  total_events : Option Nat := none
  sport_event_number : Option Nat := none
  total_sport_events : Option Nat := none
deriving DecidableEq

/-- The relational store: lists of rows per table. A `links` entry is
(sport, venue, is_primary). -/
structure Store where
  zones : List Zone := []
  venues : List Venue := []
  sports : List Sport := []
  days : List Nat := []
  links : List (String × String × Bool) := []
  sessions : List Session := []
  events : List Event := []
deriving DecidableEq

/-- The `stats` sets maintained by `load_from_json` as caches. -/
structure Stats where
  zones : List String := []
  venues : List String := []
  sports : List String := []
  days : List Nat := []
deriving DecidableEq

/-! Row normalizer (`load_from_json`, parsing.py lines 68-170). A raw
schedule row; multi-line cells are lists of lines. -/

structure Row where
  date : String
  gamesDay : String
  zone : String
  venue : String
  sport : String
  code : String
  sessionType : String
  startCell : List String
  endCell : List String
  desc : List String
deriving DecidableEq

/-- Resolve the start/end instants and the CT flag of a row
(parsing.py lines 82-92); `none` when strptime would raise. -/
def rowTimes (row : Row) : Option (LocalDT × LocalDT × Bool) :=
  match dateOrdinal row.date with
  | none => none
  | some d =>
    let startParse := parseTimeCell row.startCell
    let endParse := parseTimeCell row.endCell
    let ct := startParse.2.2
    let off := if ct then 300 else 420
    match startParse.2.1 with
    | some ov =>
      match parseHM startParse.1, parseHM ov with
      | some sm, some em => some (⟨d, sm, off⟩, ⟨d, em, off⟩, ct)
      | _, _ => none
    | none =>
      match parseHM startParse.1, parseHM endParse.1 with
      | some sm, some em => some (⟨d, sm, off⟩, ⟨d, em, off⟩, ct)
      | _, _ => none

/-- Description lines after stripping the "Not Ticketed" sentinel
(parsing.py lines 136-140). -/
def descLines (row : Row) : List String :=
  if row.desc.headD ("") == sNotTicketed then row.desc.drop 1 else row.desc

/-- Python `int(...)` on the nonnegative digit strings the schedule uses. -/
def parseIntCell (s : String) : Option Nat :=
  digitsVal s.toList

/-- The Session entity built from one row (parsing.py lines 142-153). -/
def rowSession (row : Row) : Option Session :=
  match rowTimes row, parseIntCell row.gamesDay with
  | some (st, en, ct), some dayNum =>
    some { code := row.code, day := dayNum, sport := replaceNL row.sport,
           venue := row.venue, type := replaceNL row.sessionType,
           starts_at := st, ends_at := en,
           timezone := if ct then tzCT else tzPT,
           ticketed := !(row.desc.headD ("") == sNotTicketed) }
  | _, _ => none

/-- Structural map with a running index. -/
def mapWithIndex (f : Nat → α → β) : Nat → List α → List β
  | _, [] => []
  | n, a :: t => f n a :: mapWithIndex f (n + 1) t

/-- The Event entities built from one row (parsing.py lines 157-168). -/
def rowEvents (row : Row) : List Event :=
  let dl := descLines row
  mapWithIndex (fun i line =>
    { code := row.code, sex := parse_sex line, description := line,
      type := parse_event_type line (replaceNL row.sessionType)
        (dl.length == 1),
      order_in_session := i + 1, total_in_session := dl.length }) 0 dl

/-! Store lookups (primary-key `get`). -/

def getZone (st : Store) (zone : String) : Option Zone :=
  st.zones.find? (fun z => z.zone == some zone)

def getVenue (st : Store) (venue : String) : Option Venue :=
  st.venues.find? (fun v => v.venue == some venue)

def getSport (st : Store) (sport : String) : Option Sport :=
  st.sports.find? (fun p => p.sport == some sport)

/-- Process one schedule row (the loop body of `load_from_json`);
`none` models the exception that aborts the uncommitted load. -/
def processRow (st : Store) (stats : Stats) (row : Row) :
    Option (Store × Stats) :=
  match rowSession row with
  | none => none
  | some sess =>
    let is_ct := (parseTimeCell row.startCell).2.2
    let zone_name := row.zone
    let venue_name := row.venue
    let sport_name := replaceNL row.sport
    let p1 :=
      if stats.zones.contains zone_name then (st, stats)
      else
        (if (getZone st zone_name).isSome then st
         else { st with zones := st.zones ++ [{ zone := some zone_name }] },
         { stats with zones := stats.zones ++ [zone_name] })
    let st1 := p1.1
    let stats1 := p1.2
    let p2 :=
      if stats1.venues.contains venue_name then (st1, stats1)
      else
        (if (getVenue st1 venue_name).isSome then st1
         else { st1 with venues := st1.venues ++
           [{ venue := some venue_name, zone := some zone_name,
              in_okc := is_ct }] },
         { stats1 with venues := stats1.venues ++ [venue_name] })
    let st2 := p2.1
    let stats2 := p2.2
    let p3 :=
      if stats2.sports.contains sport_name then (st2, stats2)
      else
        (if (getSport st2 sport_name).isSome then st2
         else { st2 with sports := st2.sports ++
           [{ sport := some sport_name }] },
         { stats2 with sports := stats2.sports ++ [sport_name] })
    let st3 := p3.1
    let stats3 := p3.2
    let p4 :=
      if stats3.days.contains sess.day then (st3, stats3)
      else
        (if st3.days.contains sess.day then st3
         else { st3 with days := st3.days ++ [sess.day] },
         { stats3 with days := stats3.days ++ [sess.day] })
    let st4 := p4.1
    let stats4 := p4.2
    let st5 :=
      if st4.links.any (fun l => l.1 == sport_name && l.2.1 == venue_name) then
        st4
      else { st4 with links := st4.links ++ [(sport_name, venue_name, false)] }
    some ({ st5 with
            sessions := st5.sessions ++ [sess],
            events := st5.events ++ rowEvents row }, stats4)

/-- The full row loop of `load_from_json`; the numbering pass is applied
separately afterwards. -/
def loadRows : Store → Stats → List Row → Option Store
  | st, _, [] => some st
  | st, stats, r :: rest =>
    match processRow st stats r with
    | none => none
    | some (st2, stats2) => loadRows st2 stats2 rest

/-! The `Database.get_or_create_*` helpers (`src/la28/database.py`,
lines 73-128). The Python bodies reassign the key parameter to the lookup
result before using it in the constructor, so on a miss the created row
carries key None rather than the requested natural key. Commit-time
constraint enforcement is outside the embedding. -/

def get_or_create_zone (st : Store) (zone : String) : Store × Zone :=
  match getZone st zone with
  | some z => (st, z)
  | none =>
    let z : Zone := { zone := none }
    ({ st with zones := st.zones ++ [z] }, z)

def get_or_create_venue (st : Store) (venue : String) (zone : String)
    (in_okc : Bool := false) : Store × Venue :=
  match getVenue st venue with
  | some v => (st, v)
  | none =>
    let v : Venue := { venue := none, zone := some zone, in_okc := in_okc }
    ({ st with venues := st.venues ++ [v] }, v)

def get_or_create_sport (st : Store) (sport : String) : Store × Sport :=
  match getSport st sport with
  | some p => (st, p)
  | none =>
    let p : Sport := { sport := none }
    ({ st with sports := st.sports ++ [p] }, p)

/-! Venue enrichment (`Database.load_osm_venues`, database.py
lines 215-262). -/

structure OsmItem where
  name : Option String := none
  status : Option String := none
  address : Option String := none
  lat : Option Int := none
  lng : Option Int := none
deriving DecidableEq

def getVenueL (vs : List Venue) (n : String) : Option Venue :=
  vs.find? (fun v => v.venue == some n)

/-- Overwrite the geo fields of the first venue keyed `n`. -/
def updateVenueGeo : List Venue → String → Option String → Option Int →
    Option Int → List Venue
  | [], _, _, _, _ => []
  | v :: rest, n, a, la, ln =>
    if v.venue == some n then
      { v with address := a, latitude := la, longitude := ln } :: rest
    else v :: updateVenueGeo rest n a la ln

/-- One iteration of the `load_osm_venues` loop over
(venues, updated, skipped, not_found). Note the Python guard `not name`
is truthiness: it skips both a missing name and an empty-string name. -/
def osmStep : List Venue × Nat × Nat × Nat → OsmItem →
    List Venue × Nat × Nat × Nat
  | (vs, updated, skipped, nf), item =>
    if item.status == some ("unlocatable") || item.status == some ("not_found")
        || item.name == none || item.name == some ("") then
      (vs, updated, skipped + 1, nf)
    else
      match item.name with
      | none => (vs, updated, skipped + 1, nf)
      | some n =>
        match getVenueL vs n with
        | none => (vs, updated, skipped, nf + 1)
        | some _ =>
          (updateVenueGeo vs n item.address item.lat item.lng,
           updated + 1, skipped, nf)

/-- Embedding of `Database.load_osm_venues`: returns the venue table and
the (updated, skipped, not_found) counters. -/
def load_osm_venues (vs : List Venue) (items : List OsmItem) :
    List Venue × Nat × Nat × Nat :=
  items.foldl osmStep (vs, 0, 0, 0)

/-! Claims C4, C7, C8, C9. -/

/-- Concrete schedule row whose End Time cell is "TBD" while the Start Time
cell carries a real time. -/
def c4row : Row :=
  { date := "Friday, July 14"
    gamesDay := "1"
    zone := "Z"
    venue := "V"
    sport := "Judo"
    code := "JUD01"
    sessionType := "Final"
    startCell := ["09:00"]
    endCell := ["TBD"]
    desc := ["Judo Session"] }

/-- The session the loader produces for `c4row`: the end-cell "TBD" parses
to the pair ("00:00", "23:59") but the loader keeps only the first
component, so the session ends at 00:00, before its 09:00 start. -/
def c4sess : Session :=
  { code := "JUD01", day := 1, sport := "Judo", venue := "V", type := "Final",
    starts_at := ⟨196, 540, 420⟩, ends_at := ⟨196, 0, 420⟩,
    timezone := tzPT, ticketed := true }

/-- C4: the invariant `ends_at > starts_at` (outside the both-TBD case)
fails for a row where only the End Time cell is "TBD": the code resolves
the end to 00:00 of the session's date, below the real start time. -/
theorem C4_endTBD_breaks_invariant :
    rowSession c4row = some c4sess ∧
    c4sess.ends_at.utc < c4sess.starts_at.utc ∧
    c4row.startCell.headD ("") ≠ sTBD ∧
    c4row.endCell.headD ("") = sTBD := by
  refine ⟨by decide, by decide, by decide, by decide⟩

/-- C8: the `Database.get_or_create_*` helpers shadow the key parameter, so
on a miss they create an entity keyed None instead of the requested natural
key; the requested key still has no entity afterwards, and a repeated call
adds yet another row. -/
theorem C8_get_or_create_loses_key :
    ((get_or_create_zone ({} : Store) ("Downtown")).2.zone = none ∧
      getZone (get_or_create_zone ({} : Store) ("Downtown")).1 ("Downtown") =
        none) ∧
    ((get_or_create_venue ({} : Store) ("Arena") ("Z")).2.venue = none ∧
      getVenue (get_or_create_venue ({} : Store) ("Arena") ("Z")).1 ("Arena") =
        none) ∧
    ((get_or_create_sport ({} : Store) ("Judo")).2.sport = none ∧
      getSport (get_or_create_sport ({} : Store) ("Judo")).1 ("Judo") =
        none) ∧
    (get_or_create_zone
      (get_or_create_zone ({} : Store) ("Downtown")).1
        ("Downtown")).1.zones.length = 2 := by
  refine ⟨⟨by decide, by decide⟩, ⟨by decide, by decide⟩,
    ⟨by decide, by decide⟩, by decide⟩

/-- C7: whenever the first line of the Start Time cell is exactly "TBD",
the produced session runs 00:00 to 23:59 local time on the session's date
in the timezone resolved from the Start Time cell, and the End Time cell's
literal content is irrelevant. -/
theorem C7_startTBD_full_day (row : Row) (sess : Session)
    (hTBD : row.startCell.headD ("") = sTBD)
    (h : rowSession row = some sess) :
    (∃ d, dateOrdinal row.date = some d ∧
      sess.starts_at = ⟨d, 0, sess.starts_at.offset⟩ ∧
      sess.ends_at = ⟨d, 23 * 60 + 59, sess.starts_at.offset⟩) ∧
    sess.starts_at.offset =
      (if (row.startCell.drop 1).any (fun l => strHas sCT l) then 300
       else 420) ∧
    sess.timezone =
      (if (row.startCell.drop 1).any (fun l => strHas sCT l) then tzCT
       else tzPT) ∧
    (∀ ec, rowSession { row with endCell := ec } = some sess) := by
  have h1 : parseHM sT0000 = some 0 := by decide
  have h2 : parseHM sT2359 = some 1439 := by decide
  have hcell : parseTimeCell row.startCell =
      (sT0000, some sT2359, (row.startCell.drop 1).any (fun l => strHas sCT l)) := by
    unfold parseTimeCell
    rw [hTBD]
    simp
  cases hd : dateOrdinal row.date with
  | none =>
    rw [rowSession.eq_def, rowTimes.eq_def, hd] at h
    simp at h
  | some d =>
    cases hA : (row.startCell.drop 1).any (fun l => strHas sCT l) with
    | false =>
      rw [hA] at hcell
      have hrt : rowTimes row = some (⟨d, 0, 420⟩, ⟨d, 1439, 420⟩, false) := by
        rw [rowTimes.eq_def, hd]
        simp [hcell, h1, h2]
      cases hg : parseIntCell row.gamesDay with
      | none =>
        rw [rowSession.eq_def, hrt, hg] at h
        simp at h
      | some dayN =>
        rw [rowSession.eq_def, hrt, hg] at h
        simp only [Option.some.injEq] at h
        subst h
        refine ⟨⟨d, rfl, rfl, rfl⟩, by simp, by simp, ?_⟩
        intro ec
        have hrt2 : rowTimes { row with endCell := ec } =
            some (⟨d, 0, 420⟩, ⟨d, 1439, 420⟩, false) := by
          rw [rowTimes.eq_def]
          simp only [] at hd ⊢
          rw [show ({ row with endCell := ec } : Row).date = row.date from rfl,
            hd]
          rw [show ({ row with endCell := ec } : Row).startCell =
            row.startCell from rfl]
          simp [hcell, h1, h2]
        rw [rowSession.eq_def, hrt2]
        rw [show parseIntCell ({ row with endCell := ec } : Row).gamesDay =
          parseIntCell row.gamesDay from rfl, hg]
    | true =>
      rw [hA] at hcell
      have hrt : rowTimes row = some (⟨d, 0, 300⟩, ⟨d, 1439, 300⟩, true) := by
        rw [rowTimes.eq_def, hd]
        simp [hcell, h1, h2]
      cases hg : parseIntCell row.gamesDay with
      | none =>
        rw [rowSession.eq_def, hrt, hg] at h
        simp at h
      | some dayN =>
        rw [rowSession.eq_def, hrt, hg] at h
        simp only [Option.some.injEq] at h
        subst h
        refine ⟨⟨d, rfl, rfl, rfl⟩, by simp, by simp, ?_⟩
        intro ec
        have hrt2 : rowTimes { row with endCell := ec } =
            some (⟨d, 0, 300⟩, ⟨d, 1439, 300⟩, true) := by
          rw [rowTimes.eq_def]
          rw [show ({ row with endCell := ec } : Row).date = row.date from rfl,
            hd]
          rw [show ({ row with endCell := ec } : Row).startCell =
            row.startCell from rfl]
          simp [hcell, h1, h2]
        rw [rowSession.eq_def, hrt2]
        rw [show parseIntCell ({ row with endCell := ec } : Row).gamesDay =
          parseIntCell row.gamesDay from rfl, hg]
        rfl

/-- C7 witness: a concrete TBD-start row. -/
theorem C7_witness :
    (["TBD", "OKC Local Time (CT)"] : List String).headD ("") = sTBD ∧
    rowSession { c4row with startCell := ["TBD", "OKC Local Time (CT)"] } =
      some { c4sess with
              starts_at := ⟨196, 0, 300⟩, ends_at := ⟨196, 1439, 300⟩,
              timezone := tzCT } ∧
    (rowSession { c4row with startCell := ["TBD", "OKC Local Time (CT)"] }).map
        (fun s => s.starts_at) =
      some (⟨196, 0, (⟨196, 0, 300⟩ : LocalDT).offset⟩ : LocalDT) := by
  refine ⟨by decide, by decide, ?_⟩
  obtain ⟨⟨d, hd, hs, _⟩, _, _, _⟩ :=
    C7_startTBD_full_day
      { c4row with startCell := ["TBD", "OKC Local Time (CT)"] }
      { c4sess with
          starts_at := ⟨196, 0, 300⟩, ends_at := ⟨196, 1439, 300⟩,
          timezone := tzCT }
      (by decide) (by decide)
  have hd196 : d = 196 := by
    have : (some d : Option Nat) = some 196 := by rw [← hd]; decide
    simpa using this
  subst hd196
  rw [show rowSession { c4row with startCell := ["TBD", "OKC Local Time (CT)"] } =
    some { c4sess with
            starts_at := ⟨196, 0, 300⟩, ends_at := ⟨196, 1439, 300⟩,
            timezone := tzCT } from by decide]
  simp [hs]

/-! Claim C9: venue enrichment. -/

theorem updateVenueGeo_map_venue (vs : List Venue) (n : String)
    (a : Option String) (la ln : Option Int) :
    (updateVenueGeo vs n a la ln).map (fun v => v.venue) =
      vs.map (fun v => v.venue) := by
  induction vs with
  | nil => rfl
  | cons v rest ih =>
    unfold updateVenueGeo
    by_cases hv : (v.venue == some n) = true
    · simp [hv]
    · simp only [Bool.not_eq_true] at hv
      simp [hv, ih]

theorem osmStep_sum (acc : List Venue × Nat × Nat × Nat) (item : OsmItem) :
    (osmStep acc item).2.1 + (osmStep acc item).2.2.1 +
      (osmStep acc item).2.2.2 =
    acc.2.1 + acc.2.2.1 + acc.2.2.2 + 1 := by
  obtain ⟨vs, u, s, nf⟩ := acc
  simp only [osmStep]
  split
  · dsimp only; omega
  · split
    · dsimp only; omega
    · split
      · dsimp only; omega
      · dsimp only; omega

theorem osmStep_map_venue (acc : List Venue × Nat × Nat × Nat)
    (item : OsmItem) :
    (osmStep acc item).1.map (fun v => v.venue) =
      acc.1.map (fun v => v.venue) := by
  obtain ⟨vs, u, s, nf⟩ := acc
  simp only [osmStep]
  split
  · rfl
  · split
    · rfl
    · split
      · rfl
      · exact updateVenueGeo_map_venue ..

theorem foldl_osm_sum (items : List OsmItem) :
    ∀ acc : List Venue × Nat × Nat × Nat,
      (items.foldl osmStep acc).2.1 + (items.foldl osmStep acc).2.2.1 +
        (items.foldl osmStep acc).2.2.2 =
      acc.2.1 + acc.2.2.1 + acc.2.2.2 + items.length := by
  induction items with
  | nil => intro acc; simp
  | cons it rest ih =>
    intro acc
    simp only [List.foldl_cons, List.length_cons]
    rw [ih (osmStep acc it), osmStep_sum]
    omega

theorem foldl_osm_map_venue (items : List OsmItem) :
    ∀ acc : List Venue × Nat × Nat × Nat,
      (items.foldl osmStep acc).1.map (fun v => v.venue) =
        acc.1.map (fun v => v.venue) := by
  induction items with
  | nil => intro acc; rfl
  | cons it rest ih =>
    intro acc
    simp only [List.foldl_cons]
    rw [ih (osmStep acc it), osmStep_map_venue]

/-- C9 (amended): every record is counted in exactly one of
updated/skipped/not_found; enrichment never creates or deletes a Venue and
never changes a venue key; a record is skipped (venues untouched) when its
status is "unlocatable" or "not_found" or its name is absent or empty;
otherwise it is counted not_found when no venue carries its name, and
otherwise the named venue's address/latitude/longitude are overwritten. -/
theorem C9_enrichment (vs : List Venue) (items : List OsmItem) :
    ((load_osm_venues vs items).2.1 + (load_osm_venues vs items).2.2.1 +
      (load_osm_venues vs items).2.2.2 = items.length) ∧
    ((load_osm_venues vs items).1.map (fun v => v.venue) =
      vs.map (fun v => v.venue)) ∧
    (∀ acc : List Venue × Nat × Nat × Nat, ∀ item : OsmItem,
      (item.status = some ("unlocatable") ∨ item.status = some ("not_found") ∨
        item.name = none ∨ item.name = some ("")) →
      osmStep acc item = (acc.1, acc.2.1, acc.2.2.1 + 1, acc.2.2.2)) ∧
    (∀ acc : List Venue × Nat × Nat × Nat, ∀ item : OsmItem, ∀ n : String,
      item.status ≠ some ("unlocatable") → item.status ≠ some ("not_found") →
      item.name = some n → n ≠ ("") → getVenueL acc.1 n = none →
      osmStep acc item = (acc.1, acc.2.1, acc.2.2.1, acc.2.2.2 + 1)) ∧
    (∀ acc : List Venue × Nat × Nat × Nat, ∀ item : OsmItem, ∀ n : String,
      item.status ≠ some ("unlocatable") → item.status ≠ some ("not_found") →
      item.name = some n → n ≠ ("") → (getVenueL acc.1 n).isSome →
      osmStep acc item =
        (updateVenueGeo acc.1 n item.address item.lat item.lng,
         acc.2.1 + 1, acc.2.2.1, acc.2.2.2)) := by
  refine ⟨?_, ?_, ?_, ?_, ?_⟩
  · have h := foldl_osm_sum items (vs, 0, 0, 0)
    simpa [load_osm_venues] using h
  · have h := foldl_osm_map_venue items (vs, 0, 0, 0)
    simpa [load_osm_venues] using h
  · intro acc item hskip
    obtain ⟨vsa, u, s, nf⟩ := acc
    have hguard : (item.status == some ("unlocatable") ||
        item.status == some ("not_found") || item.name == none ||
        item.name == some ("")) = true := by
      rcases hskip with h | h | h | h <;> simp [h]
    simp only [osmStep, hguard]
    rfl
  · intro acc item n h1 h2 hn hne hv
    obtain ⟨vsa, u, s, nf⟩ := acc
    have hguard : (item.status == some ("unlocatable") ||
        item.status == some ("not_found") || item.name == none ||
        item.name == some ("")) = false := by
      simp [h1, h2, hn, hne]
    simp only at hv
    simp only [osmStep, hn, hv]
    rw [if_neg (by simp [h1, h2, hne])]
  · intro acc item n h1 h2 hn hne hv
    obtain ⟨vsa, u, s, nf⟩ := acc
    obtain ⟨v, hfind⟩ := Option.isSome_iff_exists.mp hv
    have hguard : (item.status == some ("unlocatable") ||
        item.status == some ("not_found") || item.name == none ||
        item.name == some ("")) = false := by
      simp [h1, h2, hn, hne]
    simp only at hfind
    simp only [osmStep, hn, hfind]
    rw [if_neg (by simp [h1, h2, hne])]

/-- Concrete enrichment record with status "ok" and a present but empty
name. -/
def c9item : OsmItem :=
  { name := some (""), status := some ("ok"), address := some ("A"),
    lat := some 1, lng := some 2 }

/-- C9 counterexample: a record whose status is not "unlocatable" or
"not_found" and whose name is present (the empty string), with no venue of
that name in the store, is counted as skipped by the code, while the claim
as stated predicts it is counted as not_found. -/
theorem C9_counterexample :
    c9item.status = some ("ok") ∧ c9item.name = some ("") ∧
    getVenueL ([] : List Venue) ("") = none ∧
    load_osm_venues [] [c9item] = ([], 0, 1, 0) := by
  refine ⟨rfl, rfl, rfl, by decide⟩

/-- A concrete venue for the C9 witness. -/
def c9venue : Venue := { venue := some ("V"), zone := some ("Z") }

/-- A concrete well-named enrichment record for the C9 witness. -/
def c9ok : OsmItem :=
  { name := some ("V"), status := some ("ok"), address := some ("A"),
    lat := some 1, lng := some 2 }

/-- C9 witness: the amended theorem applied at concrete inputs, covering
the skip, not_found and updated branches. -/
theorem C9_witness :
    ((load_osm_venues [] [c9item]).2.1 + (load_osm_venues [] [c9item]).2.2.1 +
      (load_osm_venues [] [c9item]).2.2.2 = 1) ∧
    osmStep ([], 0, 0, 0) c9item = ([], 0, 1, 0) ∧
    osmStep ([], 5, 6, 7) c9ok = ([], 5, 6, 8) ∧
    osmStep ([c9venue], 0, 0, 0) c9ok =
      (updateVenueGeo [c9venue] ("V") c9ok.address c9ok.lat c9ok.lng,
       1, 0, 0) :=
  ⟨(C9_enrichment [] [c9item]).1,
    (C9_enrichment [] [c9item]).2.2.1 ([], 0, 0, 0) c9item
      (Or.inr (Or.inr (Or.inr rfl))),
    (C9_enrichment [] [c9ok]).2.2.2.1 ([], 5, 6, 7) c9ok ("V")
      (by decide) (by decide) rfl (by decide) rfl,
    (C9_enrichment [c9venue] [c9ok]).2.2.2.2 ([c9venue], 0, 0, 0) c9ok ("V")
      (by decide) (by decide) rfl (by decide) (by decide)⟩

/-! Numbering pass (`_compute_numbering`, parsing.py lines 185-243). -/

/-- Running-counter bump: Python `d[k] = d.get(k, 0) + 1`. -/
def bumpCount (counts : String → Nat) (k : String) : String → Nat :=
  fun x => if x = k then counts k + 1 else counts x

/-- ORDER BY (starts_at, code) on sessions. SQLAlchemy's SQLite DATETIME
column stores a timezone-aware datetime as its local wall-clock text
("YYYY-MM-DD HH:MM:SS.ffffff") and discards the UTC offset, so the SQL
sort compares the stored datetimes lexicographically on the local (date,
time-of-day) fields — not on the instants they denote. -/
def sessLE (a b : Session) : Prop :=
  a.starts_at.day < b.starts_at.day ∨
    (a.starts_at.day = b.starts_at.day ∧
      (a.starts_at.minute < b.starts_at.minute ∨
        (a.starts_at.minute = b.starts_at.minute ∧ a.code ≤ b.code)))

instance : DecidableRel sessLE := fun a b => by
  unfold sessLE; exact inferInstance

instance : IsTotal Session sessLE := by
  constructor
  intro a b
  rcases Nat.lt_trichotomy a.starts_at.day b.starts_at.day with h | h | h
  · exact Or.inl (Or.inl h)
  · rcases Nat.lt_trichotomy a.starts_at.minute b.starts_at.minute with
      hm | hm | hm
    · exact Or.inl (Or.inr ⟨h, Or.inl hm⟩)
    · rcases le_total a.code b.code with hc | hc
      · exact Or.inl (Or.inr ⟨h, Or.inr ⟨hm, hc⟩⟩)
      · exact Or.inr (Or.inr ⟨h.symm, Or.inr ⟨hm.symm, hc⟩⟩)
    · exact Or.inr (Or.inr ⟨h.symm, Or.inl hm⟩)
  · exact Or.inr (Or.inl h)

instance : IsTrans Session sessLE := by
  constructor
  intro a b c hab hbc
  rcases hab with h1 | ⟨e1, h1⟩
  · rcases hbc with h2 | ⟨e2, _⟩
    · exact Or.inl (h1.trans h2)
    · exact Or.inl (Nat.lt_of_lt_of_le h1 (Nat.le_of_eq e2))
  · rcases hbc with h2 | ⟨e2, h2⟩
    · exact Or.inl (Nat.lt_of_le_of_lt (Nat.le_of_eq e1) h2)
    · refine Or.inr ⟨e1.trans e2, ?_⟩
      rcases h1 with h1 | ⟨m1, c1⟩
      · rcases h2 with h2 | ⟨m2, _⟩
        · exact Or.inl (h1.trans h2)
        · exact Or.inl (Nat.lt_of_lt_of_le h1 (Nat.le_of_eq m2))
      · rcases h2 with h2 | ⟨m2, c2⟩
        · exact Or.inl (Nat.lt_of_le_of_lt (Nat.le_of_eq m1) h2)
        · exact Or.inr ⟨m1.trans m2, c1.trans c2⟩

/-- The first counting loop: total sessions per sport. -/
def sportTotalsS (l : List Session) : String → Nat :=
  l.foldl (fun m sess => bumpCount m sess.sport) (fun _ => 0)

/-- The session numbering loop, carrying the global index and the per-sport
running counts. -/
def numberSessionsGo (totals : String → Nat) (total : Nat) :
    List Session → Nat → (String → Nat) → List Session
  | [], _, _ => []
  | sess :: rest, i, counts =>
    { sess with
        session_number := some i,
        total_sessions := some total,
        sport_session_number := some (counts sess.sport + 1),
        total_sport_sessions := some (totals sess.sport) } ::
      numberSessionsGo totals total rest (i + 1) (bumpCount counts sess.sport)

/-- Session half of `_compute_numbering`: select ordered by
(starts_at, code), then number. -/
def computeNumberingSessions (ss : List Session) : List Session :=
  let sorted := List.insertionSort sessLE ss
  numberSessionsGo (sportTotalsS sorted) sorted.length sorted 1 (fun _ => 0)

theorem foldl_bump_apply (l : List Session) :
    ∀ (m : String → Nat) (k : String),
      l.foldl (fun m sess => bumpCount m sess.sport) m k =
        m k + l.countP (fun sess => sess.sport == k) := by
  induction l with
  | nil => intro m k; simp
  | cons a t ih =>
    intro m k
    simp only [List.foldl_cons, List.countP_cons]
    rw [ih]
    by_cases h : a.sport = k
    · simp [bumpCount, h]
      omega
    · have hb : (a.sport == k) = false := beq_eq_false_iff_ne.mpr h
      simp [bumpCount, Ne.symm h, hb]

theorem sportTotalsS_eq_countP (l : List Session) (k : String) :
    sportTotalsS l k = l.countP (fun sess => sess.sport == k) := by
  have h := foldl_bump_apply l (fun _ => 0) k
  simpa [sportTotalsS] using h

theorem numberSessionsGo_length (totals : String → Nat) (total : Nat) :
    ∀ (l : List Session) (i : Nat) (c : String → Nat),
      (numberSessionsGo totals total l i c).length = l.length := by
  intro l
  induction l with
  | nil => intro i c; rfl
  | cons hd tl ih =>
    intro i c
    simp only [numberSessionsGo, List.length_cons, ih]

/-- Elementwise description of the session numbering loop. -/
theorem numberSessionsGo_getElem? (totals : String → Nat) (total : Nat) :
    ∀ (l : List Session) (i : Nat) (c : String → Nat) (j : Nat),
      (numberSessionsGo totals total l i c)[j]? =
        l[j]?.map (fun s =>
          { s with
              session_number := some (i + j),
              total_sessions := some total,
              sport_session_number :=
                some (c s.sport + 1 +
                  (l.take j).countP (fun t => t.sport == s.sport)),
              total_sport_sessions := some (totals s.sport) }) := by
  intro l
  induction l with
  | nil => intro i c j; simp [numberSessionsGo]
  | cons hd tl ih =>
    intro i c j
    cases j with
    | zero => simp [numberSessionsGo]
    | succ j =>
      simp only [numberSessionsGo, List.getElem?_cons_succ,
        List.take_succ_cons, List.countP_cons]
      rw [ih (i + 1) (bumpCount c hd.sport) j]
      cases htl : tl[j]? with
      | none => rfl
      | some s =>
        simp only [Option.map_some']
        have hcount : bumpCount c hd.sport s.sport + 1 +
            (tl.take j).countP (fun t => t.sport == s.sport) =
            c s.sport + 1 +
              ((tl.take j).countP (fun t => t.sport == s.sport) +
                if hd.sport == s.sport then 1 else 0) := by
          by_cases hsp : s.sport = hd.sport
          · simp only [bumpCount, hsp, if_pos rfl, beq_self_eq_true, if_true]
            omega
          · have hb : (hd.sport == s.sport) = false :=
              beq_eq_false_iff_ne.mpr (Ne.symm hsp)
            simp only [bumpCount, if_neg hsp, hb, Bool.false_eq_true,
              if_false]
            omega
        have hidx : i + 1 + j = i + (j + 1) := by omega
        rw [hcount, hidx]

/-- Erase the four computed counters of a session. -/
def clearS (s : Session) : Session :=
  { s with
      session_number := none,
      total_sessions := none,
      sport_session_number := none,
      total_sport_sessions := none }

theorem numberSessionsGo_map_clear (totals : String → Nat) (total : Nat) :
    ∀ (l : List Session) (i : Nat) (c : String → Nat),
      (numberSessionsGo totals total l i c).map clearS = l.map clearS := by
  intro l
  induction l with
  | nil => intro i c; rfl
  | cons hd tl ih =>
    intro i c
    simp only [numberSessionsGo, List.map_cons, ih]
    rfl

/-- Sort key of a session: the stored local wall-clock start datetime
(offset dropped by the SQLite column) and the code — exactly what the
ORDER BY compares. -/
def keyS (s : Session) : Nat × Nat × String :=
  (s.starts_at.day, s.starts_at.minute, s.code)

theorem keyS_clearS (s : Session) : keyS (clearS s) = keyS s := rfl

/-- Counting a sport through a list only looks at cleared sessions. -/
theorem countP_sport_eq_of_map_clear {l₁ l₂ : List Session}
    (h : l₁.map clearS = l₂.map clearS) (k : String) :
    l₁.countP (fun t => t.sport == k) = l₂.countP (fun t => t.sport == k) := by
  have h1 : l₁.countP (fun t => t.sport == k) =
      (l₁.map clearS).countP (fun t => t.sport == k) := by
    rw [List.countP_map]
    rfl
  have h2 : l₂.countP (fun t => t.sport == k) =
      (l₂.map clearS).countP (fun t => t.sport == k) := by
    rw [List.countP_map]
    rfl
  rw [h1, h2, h]

theorem map_keyS_eq_of_map_clear {l₁ l₂ : List Session}
    (h : l₁.map clearS = l₂.map clearS) :
    l₁.map keyS = l₂.map keyS := by
  have h1 : l₁.map keyS = (l₁.map clearS).map keyS := by
    rw [List.map_map]
    rfl
  have h2 : l₂.map keyS = (l₂.map clearS).map keyS := by
    rw [List.map_map]
    rfl
  rw [h1, h2, h]

/-- sessLE only looks at the sort key. -/
theorem sessLE_iff_keyS (a b : Session) :
    sessLE a b ↔
      ((keyS a).1 < (keyS b).1 ∨
        ((keyS a).1 = (keyS b).1 ∧
          ((keyS a).2.1 < (keyS b).2.1 ∨
            ((keyS a).2.1 = (keyS b).2.1 ∧ (keyS a).2.2 ≤ (keyS b).2.2)))) :=
  Iff.rfl

theorem sorted_sessLE_of_map_keyS_eq {l₁ l₂ : List Session}
    (h : l₁.map keyS = l₂.map keyS) (hs : List.Sorted sessLE l₂) :
    List.Sorted sessLE l₁ := by
  have h2 : List.Pairwise
      (fun x y : Nat × Nat × String => x.1 < y.1 ∨
        (x.1 = y.1 ∧ (x.2.1 < y.2.1 ∨ (x.2.1 = y.2.1 ∧ x.2.2 ≤ y.2.2))))
      (l₂.map keyS) := by
    rw [List.pairwise_map]
    exact hs.imp (fun {a b} hab => (sessLE_iff_keyS a b).mp hab)
  rw [← h, List.pairwise_map] at h2
  exact h2.imp (fun {a b} hab => (sessLE_iff_keyS a b).mpr hab)

/-- Two sessions of one date in different timezones: 09:30 Pacific (UTC
offset +420 minutes) and 10:00 Central (+300 minutes). The Central session
starts strictly earlier as an instant (15:00Z before 16:30Z), the Pacific
one earlier on the stored wall clock. -/
def c2mixA : Session :=
  { code := "A1", day := 1, sport := "Swim", venue := "V", type := "Final",
    starts_at := ⟨196, 570, 420⟩, ends_at := ⟨196, 630, 420⟩,
    timezone := tzPT, ticketed := true }

def c2mixB : Session :=
  { code := "B1", day := 1, sport := "Judo", venue := "W", type := "Final",
    starts_at := ⟨196, 600, 300⟩, ends_at := ⟨196, 660, 300⟩,
    timezone := tzCT, ticketed := true }

/-- C2 counterexample: on a mixed-timezone store the numbering pass gives
session_number 1 to the Pacific session (stored wall clock 09:30 sorts
before 10:00) although the Central session starts strictly earlier as an
instant, so the numbers do not follow ascending start-instant
(starts_at-as-instant) order as the claim reads: position 1 of the output
carries a strictly smaller start instant than position 0. -/
theorem C2_counterexample :
    c2mixB.starts_at.utc < c2mixA.starts_at.utc ∧
    (computeNumberingSessions [c2mixA, c2mixB]).map
        (fun s => (s.code, s.session_number, s.starts_at.utc)) =
      [("A1", some 1, 283230), ("B1", some 2, 283140)] := by
  constructor
  · decide
  · decide

/-- C2 (amended): let N be the number of sessions in the store. After the
session numbering pass the sessions, read in ascending (stored starts_at,
code) order — the store compares starts_at as the text SQLite persists,
the local wall-clock datetime with the UTC offset discarded, with the code
as tiebreak — carry session_number exactly 1..N, total_sessions = N
everywhere, sport_session_number counting 1..k through each sport in that
same global order, and total_sport_sessions equal to the sport's total
session count; apart from the four counters the stored multiset of sessions
is unchanged. -/
theorem C2_session_numbering (ss : List Session) :
    (computeNumberingSessions ss).length = ss.length ∧
    List.Sorted sessLE (computeNumberingSessions ss) ∧
    ((computeNumberingSessions ss).map clearS).Perm (ss.map clearS) ∧
    (∀ j s, (computeNumberingSessions ss)[j]? = some s →
      s.session_number = some (j + 1) ∧
      s.total_sessions = some ss.length ∧
      s.sport_session_number =
        some (((computeNumberingSessions ss).take (j + 1)).countP
          (fun t => t.sport == s.sport)) ∧
      s.total_sport_sessions =
        some (ss.countP (fun t => t.sport == s.sport))) := by
  set sorted := List.insertionSort sessLE ss with hsorted
  have hperm : sorted.Perm ss := List.perm_insertionSort sessLE ss
  have hsort : List.Sorted sessLE sorted := List.sorted_insertionSort sessLE ss
  have hclear : (computeNumberingSessions ss).map clearS = sorted.map clearS :=
    numberSessionsGo_map_clear (sportTotalsS sorted) sorted.length sorted 1
      (fun _ => 0)
  have hlen : (computeNumberingSessions ss).length = ss.length := by
    have h1 : (computeNumberingSessions ss).length = sorted.length :=
      numberSessionsGo_length (sportTotalsS sorted) sorted.length sorted 1
        (fun _ => 0)
    rw [h1, hperm.length_eq]
  refine ⟨hlen, ?_, ?_, ?_⟩
  · exact sorted_sessLE_of_map_keyS_eq (map_keyS_eq_of_map_clear hclear) hsort
  · rw [hclear]
    exact hperm.map clearS
  · intro j s hj
    have hchar := numberSessionsGo_getElem? (sportTotalsS sorted)
      sorted.length sorted 1 (fun _ => 0) j
    have hj2 : (numberSessionsGo (sportTotalsS sorted) sorted.length sorted 1
        (fun _ => 0))[j]? = some s := hj
    rw [hchar] at hj2
    cases hs0 : sorted[j]? with
    | none => rw [hs0] at hj2; simp at hj2
    | some s0 =>
      rw [hs0] at hj2
      simp only [Option.map_some', Option.some.injEq] at hj2
      have hsport : s.sport = s0.sport := by rw [← hj2]
      have hnum : s.session_number = some (1 + j) := by rw [← hj2]
      have htot : s.total_sessions = some sorted.length := by rw [← hj2]
      have hssn : s.sport_session_number =
          some (0 + 1 + (sorted.take j).countP
            (fun t => t.sport == s0.sport)) := by rw [← hj2]
      have htss : s.total_sport_sessions =
          some (sportTotalsS sorted s0.sport) := by rw [← hj2]
      refine ⟨by rw [hnum]; congr 1; omega, by rw [htot, hperm.length_eq], ?_, ?_⟩
      · rw [hssn, hsport]
        congr 1
        have htake : ((computeNumberingSessions ss).take (j + 1)).countP
            (fun t => t.sport == s0.sport) =
            ((sorted.take (j + 1)).countP (fun t => t.sport == s0.sport)) := by
          apply countP_sport_eq_of_map_clear
          rw [List.map_take, List.map_take, hclear]
        rw [htake, List.take_succ, List.countP_append, hs0]
        have : (s0 :: []).countP (fun t => t.sport == s0.sport) = 1 := by
          simp
        simp only [Option.toList_some]
        rw [this]
        omega
      · rw [htss, hsport, sportTotalsS_eq_countP]
        congr 1
        exact hperm.countP_eq _

/-- A concrete session for witnesses. -/
def demoSession (c : String) (sp : String) (t : Nat) : Session :=
  { code := c, day := 1, sport := sp, venue := "V", type := "Final",
    starts_at := ⟨196, t, 420⟩, ends_at := ⟨196, t + 60, 420⟩,
    timezone := tzPT, ticketed := true }

/-- C2 witness: the numbering pass applied to a concrete two-session store,
with the per-index clause instantiated at index 0. -/
theorem C2_witness :
    ((computeNumberingSessions
        [demoSession ("B1") ("Judo") 120, demoSession ("A1") ("Swim") 60])[0]? =
      some { demoSession ("A1") ("Swim") 60 with
              session_number := some 1
              total_sessions := some 2
              sport_session_number := some 1
              total_sport_sessions := some 1 }) ∧
    (computeNumberingSessions
        [demoSession ("B1") ("Judo") 120, demoSession ("A1") ("Swim") 60]).length = 2 ∧
    ({ demoSession ("A1") ("Swim") 60 with
        session_number := some 1
        total_sessions := some 2
        sport_session_number := some 1
        total_sport_sessions := some 1 } : Session).session_number = some 1 := by
  refine ⟨by decide, ?_, ?_⟩
  · exact (C2_session_numbering
      [demoSession ("B1") ("Judo") 120, demoSession ("A1") ("Swim") 60]).1
  · exact ((C2_session_numbering
      [demoSession ("B1") ("Judo") 120, demoSession ("A1") ("Swim") 60]).2.2.2
      0 _ (by decide)).1

/-! Event numbering (second half of `_compute_numbering`). -/

/-- Primary-key lookup `s.get(Session, code)`. -/
def findSession (ss : List Session) (code : String) : Option Session :=
  ss.find? (fun s => s.code == code)

/-- Stored start datetime of the session joined to an event: the local
wall-clock (day, minute-of-day) pair that the SQLite DATETIME column
keeps, the UTC offset discarded ((0, 0) when the event is an orphan;
orphans are excluded from the join before sorting). -/
def evStored (ss : List Session) (e : Event) : Nat × Nat :=
  match findSession ss e.code with
  | some s => (s.starts_at.day, s.starts_at.minute)
  | none => (0, 0)

/-- Strict lexicographic order on stored (day, minute) pairs. -/
def pairLT (x y : Nat × Nat) : Prop :=
  x.1 < y.1 ∨ (x.1 = y.1 ∧ x.2 < y.2)

instance : DecidableRel pairLT := fun x y => by
  unfold pairLT; exact inferInstance

theorem pairLT_trichotomy (x y : Nat × Nat) :
    pairLT x y ∨ x = y ∨ pairLT y x := by
  unfold pairLT
  rcases Nat.lt_trichotomy x.1 y.1 with h | h | h
  · exact Or.inl (Or.inl h)
  · rcases Nat.lt_trichotomy x.2 y.2 with h2 | h2 | h2
    · exact Or.inl (Or.inr ⟨h, h2⟩)
    · exact Or.inr (Or.inl (Prod.ext h h2))
    · exact Or.inr (Or.inr (Or.inr ⟨h.symm, h2⟩))
  · exact Or.inr (Or.inr (Or.inl h))

theorem pairLT_trans {x y z : Nat × Nat} (h1 : pairLT x y)
    (h2 : pairLT y z) : pairLT x z := by
  unfold pairLT at h1 h2 ⊢
  omega

theorem pairLT_asymm {x y : Nat × Nat} (h1 : pairLT x y)
    (h2 : pairLT y x) : False := by
  unfold pairLT at h1 h2
  omega

theorem pairLT_irrefl (x : Nat × Nat) : ¬ pairLT x x := by
  unfold pairLT
  omega

/-- Lexicographic non-strict order on (stored start, code, order) keys. -/
def lex3LE (x y : (Nat × Nat) × String × Nat) : Prop :=
  pairLT x.1 y.1 ∨
    (x.1 = y.1 ∧ (x.2.1 < y.2.1 ∨ (x.2.1 = y.2.1 ∧ x.2.2 ≤ y.2.2)))

/-- Lexicographic strict order on (stored start, code, order) keys. -/
def lex3LT (x y : (Nat × Nat) × String × Nat) : Prop :=
  pairLT x.1 y.1 ∨
    (x.1 = y.1 ∧ (x.2.1 < y.2.1 ∨ (x.2.1 = y.2.1 ∧ x.2.2 < y.2.2)))

instance : DecidableRel lex3LE := fun x y => by
  unfold lex3LE; exact inferInstance

instance : DecidableRel lex3LT := fun x y => by
  unfold lex3LT; exact inferInstance

theorem lex3LE_total (x y : (Nat × Nat) × String × Nat) :
    lex3LE x y ∨ lex3LE y x := by
  unfold lex3LE
  rcases pairLT_trichotomy x.1 y.1 with h | h | h
  · exact Or.inl (Or.inl h)
  · rcases lt_trichotomy x.2.1 y.2.1 with hc | hc | hc
    · exact Or.inl (Or.inr ⟨h, Or.inl hc⟩)
    · rcases Nat.le_total x.2.2 y.2.2 with ho | ho
      · exact Or.inl (Or.inr ⟨h, Or.inr ⟨hc, ho⟩⟩)
      · exact Or.inr (Or.inr ⟨h.symm, Or.inr ⟨hc.symm, ho⟩⟩)
    · exact Or.inr (Or.inr ⟨h.symm, Or.inl hc⟩)
  · exact Or.inr (Or.inl h)

theorem lex3LE_trans {x y z : (Nat × Nat) × String × Nat}
    (h1 : lex3LE x y) (h2 : lex3LE y z) : lex3LE x z := by
  unfold lex3LE at h1 h2 ⊢
  rcases h1 with h1 | ⟨e1, h1⟩
  · rcases h2 with h2 | ⟨e2, _⟩
    · exact Or.inl (pairLT_trans h1 h2)
    · exact Or.inl (by rw [← e2]; exact h1)
  · rcases h2 with h2 | ⟨e2, h2⟩
    · exact Or.inl (by rw [e1]; exact h2)
    · refine Or.inr ⟨e1.trans e2, ?_⟩
      rcases h1 with h1 | ⟨c1, o1⟩
      · rcases h2 with h2 | ⟨c2, _⟩
        · exact Or.inl (h1.trans h2)
        · exact Or.inl (lt_of_lt_of_le h1 (le_of_eq c2))
      · rcases h2 with h2 | ⟨c2, o2⟩
        · exact Or.inl (lt_of_le_of_lt (le_of_eq c1) h2)
        · exact Or.inr ⟨c1.trans c2, o1.trans o2⟩

theorem lex3LT_asymm {x y : (Nat × Nat) × String × Nat}
    (h1 : lex3LT x y) (h2 : lex3LT y x) : False := by
  unfold lex3LT at h1 h2
  rcases h1 with h1 | ⟨e1, h1⟩
  · rcases h2 with h2 | ⟨e2, _⟩
    · exact pairLT_asymm h1 h2
    · rw [e2] at h1
      exact pairLT_irrefl _ h1
  · rcases h2 with h2 | ⟨e2, h2⟩
    · rw [e1] at h2
      exact pairLT_irrefl _ h2
    · rcases h1 with h1 | ⟨c1, o1⟩
      · rcases h2 with h2 | ⟨c2, _⟩
        · exact absurd h1 (lt_asymm h2)
        · exact absurd h1 (by rw [c2]; exact lt_irrefl _)
      · rcases h2 with h2 | ⟨c2, o2⟩
        · exact absurd h2 (by rw [c1]; exact lt_irrefl _)
        · omega

theorem lex3LT_of_LE_of_ne {x y : (Nat × Nat) × String × Nat}
    (h : lex3LE x y) (hne : x ≠ y) : lex3LT x y := by
  unfold lex3LE at h
  unfold lex3LT
  rcases h with h | ⟨e1, h⟩
  · exact Or.inl h
  · rcases h with h | ⟨c1, o1⟩
    · exact Or.inr ⟨e1, Or.inl h⟩
    · refine Or.inr ⟨e1, Or.inr ⟨c1, ?_⟩⟩
      rcases Nat.lt_or_ge x.2.2 y.2.2 with ho | ho
      · exact ho
      · exfalso
        apply hne
        have : x.2.2 = y.2.2 := le_antisymm o1 ho
        exact Prod.ext e1 (Prod.ext c1 this)

theorem lex3LE_of_LT {x y : (Nat × Nat) × String × Nat} (h : lex3LT x y) :
    lex3LE x y := by
  unfold lex3LT at h
  unfold lex3LE
  rcases h with h | ⟨e1, h⟩
  · exact Or.inl h
  · rcases h with h | ⟨c1, o1⟩
    · exact Or.inr ⟨e1, Or.inl h⟩
    · exact Or.inr ⟨e1, Or.inr ⟨c1, Nat.le_of_lt o1⟩⟩

/-- Sort key of an event under the three-column ORDER BY: the owning
session's stored wall-clock start, the session code, and the event's
order. -/
def eKey (ss : List Session) (e : Event) : (Nat × Nat) × String × Nat :=
  (evStored ss e, e.code, e.order_in_session)

/-- ORDER BY (Session.starts_at, Session.code, Event.order_in_session) on
the joined rows; the starts_at column compares as the stored local
wall-clock text. -/
def evLE (ss : List Session) (a b : Event) : Prop :=
  lex3LE (eKey ss a) (eKey ss b)

instance (ss : List Session) : DecidableRel (evLE ss) := fun a b => by
  unfold evLE; exact inferInstance

instance (ss : List Session) : IsTotal Event (evLE ss) :=
  ⟨fun a b => lex3LE_total (eKey ss a) (eKey ss b)⟩

instance (ss : List Session) : IsTrans Event (evLE ss) :=
  ⟨fun _ _ _ h1 h2 => lex3LE_trans h1 h2⟩

/-- The event numbering loop: Python re-fetches the owning session per
event and skips the per-sport counters when it is missing. -/
def numberEventsGo (ss : List Session) (totals : String → Nat) (total : Nat) :
    List Event → Nat → (String → Nat) → List Event
  | [], _, _ => []
  | e :: rest, i, counts =>
    match findSession ss e.code with
    | some sess =>
      { e with
          event_number := some i,
          total_events := some total,
          sport_event_number := some (counts sess.sport + 1),
          total_sport_events := some (totals sess.sport) } ::
        numberEventsGo ss totals total rest (i + 1)
          (bumpCount counts sess.sport)
    | none =>
      { e with
          event_number := some i,
          total_events := some total } ::
        numberEventsGo ss totals total rest (i + 1) counts

/-- The per-sport event totals loop. -/
def eventSportTotals (ss : List Session) (es : List Event) : String → Nat :=
  es.foldl (fun m e =>
    match findSession ss e.code with
    | some sess => bumpCount m sess.sport
    | none => m) (fun _ => 0)

/-- Whether the inner join keeps an event row. -/
def joinable (ss : List Session) (e : Event) : Bool :=
  (findSession ss e.code).isSome

/-- Event half of `_compute_numbering`: the join keeps only events whose
session exists, orders them by (starts_at, code, order_in_session) and
numbers them; orphan rows stay in the store untouched. -/
def computeNumberingEvents (ss : List Session) (es : List Event) :
    List Event :=
  let sorted := List.insertionSort (evLE ss) (es.filter (joinable ss))
  numberEventsGo ss (eventSportTotals ss sorted) sorted.length sorted 1
      (fun _ => 0) ++
    es.filter (fun e => !joinable ss e)

/-- The full `_compute_numbering` pass over the store. -/
def computeNumbering (st : Store) : Store :=
  let ss := computeNumberingSessions st.sessions
  { st with
      sessions := ss,
      events := computeNumberingEvents ss st.events }

/-! Idempotence of the numbering pass (claim C3). -/

theorem numberSessionsGo_idem (T : String → Nat) (N : Nat) :
    ∀ (l : List Session) (i : Nat) (c : String → Nat),
      numberSessionsGo T N (numberSessionsGo T N l i c) i c =
        numberSessionsGo T N l i c := by
  intro l
  induction l with
  | nil => intro i c; rfl
  | cons hd tl ih =>
    intro i c
    simp only [numberSessionsGo]
    rw [ih]

theorem computeNumberingSessions_idem (ss : List Session) :
    computeNumberingSessions (computeNumberingSessions ss) =
      computeNumberingSessions ss := by
  have hclear : (computeNumberingSessions ss).map clearS =
      (List.insertionSort sessLE ss).map clearS :=
    numberSessionsGo_map_clear (sportTotalsS (List.insertionSort sessLE ss))
      (List.insertionSort sessLE ss).length (List.insertionSort sessLE ss) 1
      (fun _ => 0)
  have hsorted_out : List.Sorted sessLE (computeNumberingSessions ss) :=
    sorted_sessLE_of_map_keyS_eq (map_keyS_eq_of_map_clear hclear)
      (List.sorted_insertionSort sessLE ss)
  have hsort_eq : List.insertionSort sessLE (computeNumberingSessions ss) =
      computeNumberingSessions ss :=
    List.Sorted.insertionSort_eq hsorted_out
  have hT : sportTotalsS (computeNumberingSessions ss) =
      sportTotalsS (List.insertionSort sessLE ss) := by
    funext k
    rw [sportTotalsS_eq_countP, sportTotalsS_eq_countP]
    exact countP_sport_eq_of_map_clear hclear k
  have hN : (computeNumberingSessions ss).length =
      (List.insertionSort sessLE ss).length :=
    numberSessionsGo_length (sportTotalsS (List.insertionSort sessLE ss))
      (List.insertionSort sessLE ss).length (List.insertionSort sessLE ss) 1
      (fun _ => 0)
  show numberSessionsGo
      (sportTotalsS (List.insertionSort sessLE (computeNumberingSessions ss)))
      (List.insertionSort sessLE (computeNumberingSessions ss)).length
      (List.insertionSort sessLE (computeNumberingSessions ss)) 1
      (fun _ => 0) =
    computeNumberingSessions ss
  rw [hsort_eq, hT, hN]
  exact numberSessionsGo_idem (sportTotalsS (List.insertionSort sessLE ss))
    (List.insertionSort sessLE ss).length (List.insertionSort sessLE ss) 1
    (fun _ => 0)

/-- Erase the four computed counters of an event. -/
def clearE (e : Event) : Event :=
  { e with
      event_number := none,
      total_events := none,
      sport_event_number := none,
      total_sport_events := none }

theorem numberEventsGo_map_clear (ss : List Session) (T : String → Nat)
    (M : Nat) :
    ∀ (l : List Event) (i : Nat) (c : String → Nat),
      (numberEventsGo ss T M l i c).map clearE = l.map clearE := by
  intro l
  induction l with
  | nil => intro i c; rfl
  | cons hd tl ih =>
    intro i c
    cases hfs : findSession ss hd.code with
    | some s =>
      simp only [numberEventsGo, hfs, List.map_cons, ih]
      rfl
    | none =>
      simp only [numberEventsGo, hfs, List.map_cons, ih]
      rfl

theorem numberEventsGo_length (ss : List Session) (T : String → Nat)
    (M : Nat) :
    ∀ (l : List Event) (i : Nat) (c : String → Nat),
      (numberEventsGo ss T M l i c).length = l.length := by
  intro l
  induction l with
  | nil => intro i c; rfl
  | cons hd tl ih =>
    intro i c
    cases hfs : findSession ss hd.code with
    | some s => simp only [numberEventsGo, hfs, List.length_cons, ih]
    | none => simp only [numberEventsGo, hfs, List.length_cons, ih]

theorem numberEventsGo_idem (ss : List Session) (T : String → Nat) (M : Nat) :
    ∀ (l : List Event) (i : Nat) (c : String → Nat),
      numberEventsGo ss T M (numberEventsGo ss T M l i c) i c =
        numberEventsGo ss T M l i c := by
  intro l
  induction l with
  | nil => intro i c; rfl
  | cons hd tl ih =>
    intro i c
    cases hfs : findSession ss hd.code with
    | some s =>
      simp only [numberEventsGo, hfs]
      rw [ih]
    | none =>
      simp only [numberEventsGo, hfs]
      rw [ih]

theorem map_eKey_eq_of_map_clearE {ss : List Session} {l₁ l₂ : List Event}
    (h : l₁.map clearE = l₂.map clearE) :
    l₁.map (eKey ss) = l₂.map (eKey ss) := by
  have h1 : l₁.map (eKey ss) = (l₁.map clearE).map (eKey ss) := by
    rw [List.map_map]; rfl
  have h2 : l₂.map (eKey ss) = (l₂.map clearE).map (eKey ss) := by
    rw [List.map_map]; rfl
  rw [h1, h2, h]

theorem sorted_evLE_of_map_eKey_eq {ss : List Session} {l₁ l₂ : List Event}
    (h : l₁.map (eKey ss) = l₂.map (eKey ss))
    (hs : List.Sorted (evLE ss) l₂) : List.Sorted (evLE ss) l₁ := by
  have h2 : List.Pairwise lex3LE (l₂.map (eKey ss)) := by
    rw [List.pairwise_map]
    exact hs.imp (fun {a b} hab => hab)
  rw [← h, List.pairwise_map] at h2
  exact h2.imp (fun {a b} hab => hab)

theorem joinable_eq_of_mem_of_map_clearE {ss : List Session}
    {l₁ l₂ : List Event} (h : l₁.map clearE = l₂.map clearE)
    {e : Event} (he : e ∈ l₁) (hall : ∀ x ∈ l₂, joinable ss x = true) :
    joinable ss e = true := by
  have hmem : clearE e ∈ l₂.map clearE := by
    rw [← h]
    exact List.mem_map_of_mem clearE he
  obtain ⟨x, hx, hxe⟩ := List.mem_map.mp hmem
  have hje : joinable ss (clearE e) = joinable ss e := rfl
  have hjx : joinable ss (clearE x) = joinable ss x := rfl
  rw [← hje, ← hxe, hjx]
  exact hall x hx

/-- Whether an event's joined session has a given sport. -/
def evSportIs (ss : List Session) (k : String) (e : Event) : Bool :=
  match findSession ss e.code with
  | some s => s.sport == k
  | none => false

theorem foldl_evbump_apply (ss : List Session) (l : List Event) :
    ∀ (m : String → Nat) (k : String),
      (l.foldl (fun m e =>
        match findSession ss e.code with
        | some sess => bumpCount m sess.sport
        | none => m) m) k =
      m k + l.countP (evSportIs ss k) := by
  induction l with
  | nil => intro m k; simp
  | cons a t ih =>
    intro m k
    simp only [List.foldl_cons, List.countP_cons]
    cases hfs : findSession ss a.code with
    | some s =>
      rw [ih]
      by_cases h : s.sport = k
      · simp only [bumpCount, evSportIs, hfs, h, if_pos rfl, beq_self_eq_true,
          if_true]
        omega
      · have hb : (s.sport == k) = false := beq_eq_false_iff_ne.mpr h
        simp only [bumpCount, evSportIs, hfs, hb, Bool.false_eq_true,
          if_false, if_neg (Ne.symm h)]
        have hk : (if k = s.sport then m s.sport + 1 else m k) = m k := by
          rw [if_neg (Ne.symm h)]
        omega
    | none =>
      rw [ih]
      simp [evSportIs, hfs]

theorem eventSportTotals_eq_countP (ss : List Session) (l : List Event)
    (k : String) :
    eventSportTotals ss l k = l.countP (evSportIs ss k) := by
  have h := foldl_evbump_apply ss l (fun _ => 0) k
  simpa [eventSportTotals] using h

theorem countP_evSportIs_eq_of_map_clearE {ss : List Session}
    {l₁ l₂ : List Event} (h : l₁.map clearE = l₂.map clearE) (k : String) :
    l₁.countP (evSportIs ss k) = l₂.countP (evSportIs ss k) := by
  have h1 : l₁.countP (evSportIs ss k) =
      (l₁.map clearE).countP (evSportIs ss k) := by
    rw [List.countP_map]
    rfl
  have h2 : l₂.countP (evSportIs ss k) =
      (l₂.map clearE).countP (evSportIs ss k) := by
    rw [List.countP_map]
    rfl
  rw [h1, h2, h]

theorem computeNumberingEvents_idem (ss : List Session) (es : List Event) :
    computeNumberingEvents ss (computeNumberingEvents ss es) =
      computeNumberingEvents ss es := by
  set J := es.filter (joinable ss) with hJ
  set sorted := List.insertionSort (evLE ss) J with hsortdef
  set A := numberEventsGo ss (eventSportTotals ss sorted) sorted.length sorted
    1 (fun _ => 0) with hA
  set B := es.filter (fun e => !joinable ss e) with hB
  have hout : computeNumberingEvents ss es = A ++ B := rfl
  have hclear : A.map clearE = sorted.map clearE :=
    numberEventsGo_map_clear ss (eventSportTotals ss sorted) sorted.length
      sorted 1 (fun _ => 0)
  have hallJ : ∀ x ∈ sorted, joinable ss x = true := by
    intro x hx
    have hx2 : x ∈ J :=
      (List.Perm.mem_iff (List.perm_insertionSort (evLE ss) J)).mp hx
    exact (List.mem_filter.mp hx2).2
  have hallA : ∀ e ∈ A, joinable ss e = true := fun e he =>
    joinable_eq_of_mem_of_map_clearE hclear he hallJ
  have hallB : ∀ e ∈ B, joinable ss e = false := by
    intro e he
    have h2 := (List.mem_filter.mp he).2
    simpa using h2
  have hfilterJ : (A ++ B).filter (joinable ss) = A := by
    rw [List.filter_append]
    rw [List.filter_eq_self.mpr hallA]
    rw [List.filter_eq_nil_iff.mpr
      (fun e he => by simp [hallB e he])]
    simp
  have hfilterB : (A ++ B).filter (fun e => !joinable ss e) = B := by
    rw [List.filter_append]
    rw [show A.filter (fun e => !joinable ss e) = [] from
      List.filter_eq_nil_iff.mpr (fun e he => by simp [hallA e he])]
    rw [List.filter_eq_self.mpr (fun e he => by simp [hallB e he])]
    simp
  have hsortedA : List.Sorted (evLE ss) A :=
    sorted_evLE_of_map_eKey_eq (map_eKey_eq_of_map_clearE hclear)
      (List.sorted_insertionSort (evLE ss) J)
  have hsortA : List.insertionSort (evLE ss) A = A :=
    List.Sorted.insertionSort_eq hsortedA
  have hT : eventSportTotals ss A = eventSportTotals ss sorted := by
    funext k
    rw [eventSportTotals_eq_countP, eventSportTotals_eq_countP]
    exact countP_evSportIs_eq_of_map_clearE hclear k
  have hN : A.length = sorted.length :=
    numberEventsGo_length ss (eventSportTotals ss sorted) sorted.length sorted
      1 (fun _ => 0)
  rw [hout]
  show numberEventsGo ss
      (eventSportTotals ss
        (List.insertionSort (evLE ss) ((A ++ B).filter (joinable ss))))
      (List.insertionSort (evLE ss) ((A ++ B).filter (joinable ss))).length
      (List.insertionSort (evLE ss) ((A ++ B).filter (joinable ss))) 1
      (fun _ => 0) ++
    (A ++ B).filter (fun e => !joinable ss e) = A ++ B
  rw [hfilterJ, hfilterB, hsortA, hT, hN]
  exact congrArg (· ++ B)
    (numberEventsGo_idem ss (eventSportTotals ss sorted) sorted.length sorted
      1 (fun _ => 0))

/-- C3: the numbering pass is idempotent: running `_compute_numbering`
twice on an unchanged store leaves every session counter and every event
counter (indeed the whole store) identical to running it once. -/
theorem C3_numbering_idempotent (st : Store) :
    computeNumbering (computeNumbering st) = computeNumbering st := by
  show ({ st with
      sessions :=
        computeNumberingSessions (computeNumberingSessions st.sessions),
      events :=
        computeNumberingEvents
          (computeNumberingSessions (computeNumberingSessions st.sessions))
          (computeNumberingEvents (computeNumberingSessions st.sessions)
            st.events) } : Store) =
    { st with
      sessions := computeNumberingSessions st.sessions,
      events :=
        computeNumberingEvents (computeNumberingSessions st.sessions)
          st.events }
  rw [computeNumberingSessions_idem]
  rw [computeNumberingEvents_idem]

/-! The in-memory pipeline of read.py: a schedule is a list of sessions
each owning its ordered event list (claim C10). -/

structure NS where
  sess : Session
  evs : List Event
deriving DecidableEq

/-- Python `sorted(self, key=lambda s: s.start_time)`: sort by start
instant only. -/
def nsLE (a b : NS) : Prop :=
  a.sess.starts_at.utc ≤ b.sess.starts_at.utc

instance : DecidableRel nsLE := fun a b => by
  unfold nsLE; exact inferInstance

instance : IsTotal NS nsLE := ⟨fun a b => Nat.le_total _ _⟩

instance : IsTrans NS nsLE := ⟨fun _ _ _ h1 h2 => Nat.le_trans h1 h2⟩

/-- Overwrite one key of a counter map (net effect of the inner loop's
repeated `d[k] += 1`). -/
def setCount (m : String → Nat) (k : String) (v : Nat) : String → Nat :=
  fun x => if x = k then v else m x

/-- The inner event loop of `Schedule.recount` over one session's events,
carrying the global event counter and the owning sport's running count. -/
def recountEvGo (totE : Nat) : List Event → Nat → Nat →
    List Event × Nat × Nat
  | [], en, c => ([], en, c)
  | e :: rest, en, c =>
    let r := recountEvGo totE rest (en + 1) (c + 1)
    ({ e with
        event_number := some (en + 1),
        total_events := some totE,
        sport_event_number := some (c + 1) } :: r.1, r.2)

/-- The first loop of `Schedule.recount` (read.py lines 311-324), returning
the processed sessions and the final per-sport session and event counts. -/
def recountGo (totS totE : Nat) :
    List NS → Nat → Nat → (String → Nat) → (String → Nat) →
      List NS × (String → Nat) × (String → Nat)
  | [], _, _, sc, ec => ([], sc, ec)
  | ns :: rest, i, en, sc, ec =>
    let er := recountEvGo totE ns.evs en (ec ns.sess.sport)
    let ns2 : NS :=
      { sess := { ns.sess with
          session_number := some i,
          total_sessions := some totS,
          sport_session_number := some (sc ns.sess.sport + 1) },
        evs := er.1 }
    let r := recountGo totS totE rest (i + 1) er.2.1
      (bumpCount sc ns.sess.sport) (setCount ec ns.sess.sport er.2.2)
    (ns2 :: r.1, r.2)

/-- The back-fill loop of `Schedule.recount` (read.py lines 325-328). -/
def backfill (sc ec : String → Nat) (l : List NS) : List NS :=
  l.map (fun ns =>
    { sess := { ns.sess with
        total_sport_sessions := some (sc ns.sess.sport) },
      evs := ns.evs.map (fun e =>
        { e with total_sport_events := some (ec ns.sess.sport) }) })

/-- Embedding of `Schedule.recount`, presented in pass order. -/
def recount (sched : List NS) : List NS :=
  let totE := (sched.flatMap (fun ns => ns.evs)).length
  let sorted := List.insertionSort nsLE sched
  let r := recountGo sched.length totE sorted 1 0 (fun _ => 0) (fun _ => 0)
  backfill r.2.1 r.2.2 r.1

/-- The relational store holding the same schedule. -/
def flatStore (sched : List NS) : Store :=
  { sessions := sched.map (fun ns => ns.sess),
    events := sched.flatMap (fun ns => ns.evs) }

/-! Canonical form shared by the two numbering passes. -/

/-- One fully-numbered block of events of a single session: `tv` is the
owning sport's total event count. -/
def canonBlock (M : Nat) (tv : Nat) : List Event → Nat → Nat → List Event
  | [], _, _ => []
  | e :: rest, en, c =>
    { e with
        event_number := some (en + 1),
        total_events := some M,
        sport_event_number := some (c + 1),
        total_sport_events := some tv } :: canonBlock M tv rest (en + 1) (c + 1)

/-- Fully-numbered events of a block list. -/
def canonEvents (T : String → Nat) (M : Nat) :
    List NS → Nat → (String → Nat) → List Event
  | [], _, _ => []
  | ns :: rest, en, c =>
    canonBlock M (T ns.sess.sport) ns.evs en (c ns.sess.sport) ++
      canonEvents T M rest (en + ns.evs.length)
        (setCount c ns.sess.sport (c ns.sess.sport + ns.evs.length))

theorem recountEvGo_counters (totE : Nat) :
    ∀ (l : List Event) (en c : Nat),
      (recountEvGo totE l en c).2.1 = en + l.length ∧
        (recountEvGo totE l en c).2.2 = c + l.length := by
  intro l
  induction l with
  | nil => intro en c; exact ⟨rfl, rfl⟩
  | cons e rest ih =>
    intro en c
    simp only [recountEvGo]
    obtain ⟨h1, h2⟩ := ih (en + 1) (c + 1)
    constructor
    · rw [h1]; simp [List.length_cons]; omega
    · rw [h2]; simp [List.length_cons]; omega

theorem recountEvGo_backfilled (totE : Nat) (v : Nat) :
    ∀ (l : List Event) (en c : Nat),
      ((recountEvGo totE l en c).1).map
          (fun e => { e with total_sport_events := some v }) =
        canonBlock totE v l en c := by
  intro l
  induction l with
  | nil => intro en c; rfl
  | cons e rest ih =>
    intro en c
    simp only [recountEvGo, canonBlock, List.map_cons, ih]

theorem backfill_cons (S T : String → Nat) (ns : NS) (l : List NS) :
    backfill S T (ns :: l) =
      { sess := { ns.sess with
          total_sport_sessions := some (S ns.sess.sport) },
        evs := ns.evs.map (fun e =>
          { e with total_sport_events := some (T ns.sess.sport) }) } ::
        backfill S T l := rfl

/-- The recount first loop plus back-fill, projected to sessions, is the
database session numbering loop. -/
theorem recount_sessions_eq (totS totE : Nat) (S T : String → Nat) :
    ∀ (l : List NS) (i en : Nat) (sc ec : String → Nat),
      ((backfill S T (recountGo totS totE l i en sc ec).1).map
        (fun ns => ns.sess)) =
      numberSessionsGo S totS (l.map (fun ns => ns.sess)) i sc := by
  intro l
  induction l with
  | nil => intro i en sc ec; rfl
  | cons ns rest ih =>
    intro i en sc ec
    simp only [recountGo, backfill_cons, List.map_cons, numberSessionsGo]
    rw [ih]

/-- The recount first loop plus back-fill, flattened to events, is the
canonical block numbering. -/
theorem recount_events_eq (totS totE : Nat) (S T : String → Nat) :
    ∀ (l : List NS) (i en : Nat) (sc ec : String → Nat),
      ((backfill S T (recountGo totS totE l i en sc ec).1).flatMap
        (fun ns => ns.evs)) =
      canonEvents T totE l en ec := by
  intro l
  induction l with
  | nil => intro i en sc ec; rfl
  | cons ns rest ih =>
    intro i en sc ec
    simp only [recountGo, backfill_cons, List.flatMap_cons, canonEvents]
    rw [recountEvGo_backfilled]
    rw [ih]
    obtain ⟨h1, h2⟩ :=
      recountEvGo_counters totE ns.evs en (ec ns.sess.sport)
    rw [h1, h2]

/-- Final per-sport session counts of the recount loop. -/
theorem recountGo_final_sc (totS totE : Nat) :
    ∀ (l : List NS) (i en : Nat) (sc ec : String → Nat) (k : String),
      (recountGo totS totE l i en sc ec).2.1 k =
        sc k + l.countP (fun ns => ns.sess.sport == k) := by
  intro l
  induction l with
  | nil => intro i en sc ec k; simp [recountGo]
  | cons ns rest ih =>
    intro i en sc ec k
    simp only [recountGo, List.countP_cons]
    rw [ih]
    by_cases h : ns.sess.sport = k
    · simp only [bumpCount, h, if_pos rfl, beq_self_eq_true, if_true]
      omega
    · have hb : (ns.sess.sport == k) = false := beq_eq_false_iff_ne.mpr h
      simp only [bumpCount, if_neg (Ne.symm h), hb, Bool.false_eq_true,
        if_false]
      omega

/-- Final per-sport event counts of the recount loop. -/
theorem recountGo_final_ec (totS totE : Nat) :
    ∀ (l : List NS) (i en : Nat) (sc ec : String → Nat) (k : String),
      (recountGo totS totE l i en sc ec).2.2 k =
        ec k + (l.map (fun ns =>
          if ns.sess.sport == k then ns.evs.length else 0)).sum := by
  intro l
  induction l with
  | nil => intro i en sc ec k; simp [recountGo]
  | cons ns rest ih =>
    intro i en sc ec k
    simp only [recountGo, List.map_cons, List.sum_cons]
    rw [ih]
    obtain ⟨h1, h2⟩ :=
      recountEvGo_counters totE ns.evs en (ec ns.sess.sport)
    by_cases h : ns.sess.sport = k
    · simp only [setCount, h, if_pos rfl, beq_self_eq_true, if_true]
      rw [← h, h2]
      omega
    · have hb : (ns.sess.sport == k) = false := beq_eq_false_iff_ne.mpr h
      simp only [setCount, if_neg (Ne.symm h), hb, Bool.false_eq_true,
        if_false]
      omega

/-! The ordering agreement of the two passes under distinct start
instants. -/

/-- Strict start-instant order on sessions. -/
def sessLT (a b : Session) : Prop :=
  a.starts_at.utc < b.starts_at.utc

/-- The stored wall-clock order implies the instant order when the two
sessions share a UTC offset and their wall-clock minutes are in range (as
any datetime's are). -/
theorem utc_le_of_sessLE {a b : Session} (h : sessLE a b)
    (ho : a.starts_at.offset = b.starts_at.offset)
    (ha : a.starts_at.minute < 1440) (hb : b.starts_at.minute < 1440) :
    a.starts_at.utc ≤ b.starts_at.utc := by
  unfold sessLE at h
  unfold LocalDT.utc
  rcases h with h | ⟨h1, h | ⟨h2, _⟩⟩ <;> omega

/-- Strictly earlier instants give strictly earlier stored wall clocks
under a shared offset and in-range minutes. -/
theorem pairLT_of_utc_lt {a b : LocalDT} (ho : a.offset = b.offset)
    (ha : a.minute < 1440) (hb : b.minute < 1440) (h : a.utc < b.utc) :
    pairLT (a.day, a.minute) (b.day, b.minute) := by
  unfold LocalDT.utc at h
  show a.day < b.day ∨ (a.day = b.day ∧ a.minute < b.minute)
  omega

theorem pairwise_sessLT_of_le_nodup {l : List Session}
    (hle : List.Pairwise
      (fun a b : Session => a.starts_at.utc ≤ b.starts_at.utc) l)
    (hnd : (l.map (fun s => s.starts_at.utc)).Nodup) :
    List.Pairwise sessLT l := by
  have hnd2 : List.Pairwise (fun a b : Nat => a ≠ b)
      (l.map (fun s => s.starts_at.utc)) := hnd
  rw [List.pairwise_map] at hnd2
  have hand := hle.and hnd2
  exact hand.imp (fun {a b} hab => Nat.lt_of_le_of_ne hab.1 hab.2)

/-- With one shared UTC offset, in-range wall minutes and pairwise-distinct
start instants, sorting the nested schedule by start instant and sorting
the session rows by the stored (wall-clock start, code) key coincide. -/
theorem sorted_map_sess_eq (sched : List NS) (o : Nat)
    (hoff : ∀ ns ∈ sched, ns.sess.starts_at.offset = o)
    (hmin : ∀ ns ∈ sched, ns.sess.starts_at.minute < 1440)
    (hD : (sched.map (fun ns => ns.sess.starts_at.utc)).Nodup) :
    (List.insertionSort nsLE sched).map (fun ns => ns.sess) =
      List.insertionSort sessLE (sched.map (fun ns => ns.sess)) := by
  have hmemL : ∀ s ∈ List.insertionSort sessLE
      (sched.map (fun ns => ns.sess)),
      s.starts_at.offset = o ∧ s.starts_at.minute < 1440 := by
    intro s hs
    rw [List.mem_insertionSort] at hs
    obtain ⟨ns, hns, rfl⟩ := List.mem_map.mp hs
    exact ⟨hoff ns hns, hmin ns hns⟩
  have hDL : ((sched.map (fun ns => ns.sess)).map
      (fun s => s.starts_at.utc)).Nodup := by
    rw [List.map_map]
    exact hD
  have hperm1 : ((List.insertionSort nsLE sched).map
      (fun ns => ns.sess)).Perm (sched.map (fun ns => ns.sess)) :=
    (List.perm_insertionSort nsLE sched).map _
  have hperm2 : (List.insertionSort sessLE
      (sched.map (fun ns => ns.sess))).Perm
      (sched.map (fun ns => ns.sess)) :=
    List.perm_insertionSort sessLE _
  have hD1 : (((List.insertionSort nsLE sched).map (fun ns => ns.sess)).map
      (fun s => s.starts_at.utc)).Nodup :=
    ((hperm1.map (fun s => s.starts_at.utc)).nodup_iff).mpr hDL
  have hD2 : ((List.insertionSort sessLE
      (sched.map (fun ns => ns.sess))).map
      (fun s => s.starts_at.utc)).Nodup :=
    ((hperm2.map (fun s => s.starts_at.utc)).nodup_iff).mpr hDL
  have hp1 : List.Pairwise
      (fun a b : Session => a.starts_at.utc ≤ b.starts_at.utc)
      ((List.insertionSort nsLE sched).map (fun ns => ns.sess)) := by
    rw [List.pairwise_map]
    exact (List.sorted_insertionSort nsLE sched).imp (fun {a b} h => h)
  have hp2 : List.Pairwise
      (fun a b : Session => a.starts_at.utc ≤ b.starts_at.utc)
      (List.insertionSort sessLE (sched.map (fun ns => ns.sess))) := by
    refine (List.sorted_insertionSort sessLE _).imp_of_mem ?_
    intro a b ha hb h
    obtain ⟨hao, ham⟩ := hmemL a ha
    obtain ⟨hbo, hbm⟩ := hmemL b hb
    exact utc_le_of_sessLE h (hao.trans hbo.symm) ham hbm
  haveI : IsAntisymm Session sessLT :=
    ⟨fun a b h1 h2 => absurd h1 (Nat.lt_asymm h2)⟩
  exact List.eq_of_perm_of_sorted (hperm1.trans hperm2.symm)
    (pairwise_sessLT_of_le_nodup hp1 hD1)
    (pairwise_sessLT_of_le_nodup hp2 hD2)

/-! Session lookup facts used to relate the two event orderings. -/

theorem findSession_of_mem_nodup :
    ∀ {l : List Session}, (l.map (fun s => s.code)).Nodup →
      ∀ {s : Session}, s ∈ l → findSession l s.code = some s := by
  intro l
  induction l with
  | nil => intro _ s hs; cases hs
  | cons b t ih =>
    intro hnd s hs
    rw [List.map_cons, List.nodup_cons] at hnd
    rcases List.mem_cons.mp hs with rfl | hs2
    · unfold findSession
      rw [List.find?_cons_of_pos _ (by simp)]
    · have hne : (b.code == s.code) = false := by
        refine beq_eq_false_iff_ne.mpr (fun he => hnd.1 ?_)
        rw [he]
        exact List.mem_map_of_mem _ hs2
      unfold findSession
      rw [List.find?_cons_of_neg _ (by simp [hne])]
      exact ih hnd.2 hs2

theorem findSession_map_clear {l₁ l₂ : List Session}
    (h : l₁.map clearS = l₂.map clearS) (c : String) :
    (findSession l₁ c).map clearS = (findSession l₂ c).map clearS := by
  have h1 : (findSession l₁ c).map clearS =
      (l₁.map clearS).find? (fun s => s.code == c) := by
    rw [List.find?_map]
    rfl
  have h2 : (findSession l₂ c).map clearS =
      (l₂.map clearS).find? (fun s => s.code == c) := by
    rw [List.find?_map]
    rfl
  rw [h1, h2, h]

/-- In the numbered session table the code of a session row of the store
still resolves, with the original sport and start datetime. -/
theorem findSession_resolve (L : List Session)
    (hnd : (L.map (fun s => s.code)).Nodup) (s : Session)
    (hs : s ∈ List.insertionSort sessLE L) :
    ∃ t, findSession (computeNumberingSessions L) s.code = some t ∧
      t.sport = s.sport ∧ t.starts_at = s.starts_at := by
  have hndSorted : ((List.insertionSort sessLE L).map
      (fun s => s.code)).Nodup :=
    (((List.perm_insertionSort sessLE L).map (fun s => s.code)).nodup_iff).mpr
      hnd
  have hfind : findSession (List.insertionSort sessLE L) s.code = some s :=
    findSession_of_mem_nodup hndSorted hs
  have hclear : (computeNumberingSessions L).map clearS =
      (List.insertionSort sessLE L).map clearS :=
    numberSessionsGo_map_clear (sportTotalsS (List.insertionSort sessLE L))
      (List.insertionSort sessLE L).length (List.insertionSort sessLE L) 1
      (fun _ => 0)
  have hmap := findSession_map_clear hclear s.code
  rw [hfind] at hmap
  cases hres : findSession (computeNumberingSessions L) s.code with
  | none => rw [hres] at hmap; simp at hmap
  | some t =>
    rw [hres] at hmap
    simp only [Option.map_some', Option.some.injEq] at hmap
    refine ⟨t, rfl, ?_, ?_⟩
    · have : (clearS t).sport = (clearS s).sport := by rw [hmap]
      exact this
    · have : (clearS t).starts_at = (clearS s).starts_at := by rw [hmap]
      exact this

/-! Pairwise facts about flattened event blocks. -/

theorem pairwise_flatMap_evs {R : Event → Event → Prop} :
    ∀ (l : List NS), (∀ ns ∈ l, List.Pairwise R ns.evs) →
      List.Pairwise (fun a b : NS => ∀ x ∈ a.evs, ∀ y ∈ b.evs, R x y) l →
      List.Pairwise R (l.flatMap (fun ns => ns.evs)) := by
  intro l
  induction l with
  | nil => intro _ _; simp
  | cons ns rest ih =>
    intro hin hcross
    rw [List.flatMap_cons, List.pairwise_append]
    obtain ⟨hhead, htail⟩ := List.pairwise_cons.mp hcross
    refine ⟨hin ns (List.mem_cons_self ns rest),
      ih (fun x hx => hin x (List.mem_cons_of_mem ns hx)) htail, ?_⟩
    intro x hx y hy
    obtain ⟨ns2, hns2, hy2⟩ := List.mem_flatMap.mp hy
    exact hhead ns2 hns2 x hx y hy2

theorem pairwise_order_lt_of_orders {evs : List Event}
    (h : ∀ (j : Nat) (e : Event), evs[j]? = some e →
      e.order_in_session = j + 1) :
    List.Pairwise
      (fun x y : Event => x.order_in_session < y.order_in_session) evs := by
  rw [List.pairwise_iff_getElem]
  intro i j hi hj hij
  have hi2 := h i evs[i] (by rw [List.getElem?_eq_getElem hi])
  have hj2 := h j evs[j] (by rw [List.getElem?_eq_getElem hj])
  omega

/-! The database event loop over whole blocks. -/

theorem numberEventsGo_block (ss : List Session) (T : String → Nat) (M : Nat)
    (code : String) (s : Session) (hfs : findSession ss code = some s) :
    ∀ (evs : List Event), ∀ (rest : List Event) (en : Nat)
      (c : String → Nat), (∀ e ∈ evs, e.code = code) →
      numberEventsGo ss T M (evs ++ rest) (en + 1) c =
        canonBlock M (T s.sport) evs en (c s.sport) ++
          numberEventsGo ss T M rest (en + evs.length + 1)
            (setCount c s.sport (c s.sport + evs.length)) := by
  intro evs
  induction evs with
  | nil =>
    intro rest en c _
    have hsc : setCount c s.sport (c s.sport) = c := by
      funext x
      unfold setCount
      by_cases hx : x = s.sport
      · simp [hx]
      · simp [hx]
    simp only [List.nil_append, canonBlock, List.length_nil, Nat.add_zero,
      hsc]
  | cons e evs' ih =>
    intro rest en c hcode
    have hce : e.code = code := hcode e (List.mem_cons_self e evs')
    simp only [List.cons_append, numberEventsGo, hce, hfs, List.append_eq]
    rw [ih rest (en + 1) (bumpCount c s.sport)
      (fun x hx => hcode x (List.mem_cons_of_mem e hx))]
    simp only [canonBlock, List.length_cons]
    have hb : bumpCount c s.sport s.sport = c s.sport + 1 := by
      unfold bumpCount
      simp
    have h1 : en + 1 + evs'.length + 1 = en + (evs'.length + 1) + 1 := by
      omega
    have h2 : setCount (bumpCount c s.sport) s.sport
        (c s.sport + 1 + evs'.length) =
        setCount c s.sport (c s.sport + (evs'.length + 1)) := by
      funext x
      unfold setCount bumpCount
      by_cases hx : x = s.sport
      · simp [hx]
        omega
      · simp [hx]
    rw [hb, h1, h2, hce]
    simp [List.cons_append]

theorem lex3LT_ne {x y : (Nat × Nat) × String × Nat} (h : lex3LT x y) : x ≠ y :=
  fun he => lex3LT_asymm h (he ▸ h)

/-- Strict order on blocks by start instant. -/
def nsLT (a b : NS) : Prop :=
  a.sess.starts_at.utc < b.sess.starts_at.utc

theorem pairwise_nsLT_of_le_nodup {l : List NS}
    (hle : List.Pairwise nsLE l)
    (hnd : (l.map (fun ns => ns.sess.starts_at.utc)).Nodup) :
    List.Pairwise nsLT l := by
  have hnd2 : List.Pairwise (fun a b : Nat => a ≠ b)
      (l.map (fun ns => ns.sess.starts_at.utc)) := hnd
  rw [List.pairwise_map] at hnd2
  exact (hle.and hnd2).imp (fun {a b} hab => Nat.lt_of_le_of_ne hab.1 hab.2)

/-- With one shared UTC offset, in-range wall minutes, unique codes and
pairwise-distinct start instants, sorting the flattened events by (joined
stored start, code, order) lists them grouped by the instant-sorted blocks
in their original inner order. -/
theorem sorted_events_eq (sched : List NS) (o : Nat)
    (hoff : ∀ ns ∈ sched, ns.sess.starts_at.offset = o)
    (hmin : ∀ ns ∈ sched, ns.sess.starts_at.minute < 1440)
    (hW1 : ∀ ns ∈ sched, ∀ (j : Nat) (e : Event), ns.evs[j]? = some e →
      e.code = ns.sess.code ∧ e.order_in_session = j + 1)
    (hW2 : (sched.map (fun ns => ns.sess.code)).Nodup)
    (hD : (sched.map (fun ns => ns.sess.starts_at.utc)).Nodup) :
    List.insertionSort
        (evLE (computeNumberingSessions (sched.map (fun ns => ns.sess))))
        (sched.flatMap (fun ns => ns.evs)) =
      (List.insertionSort nsLE sched).flatMap (fun ns => ns.evs) := by
  set L := sched.map (fun ns => ns.sess) with hL
  set ss1 := computeNumberingSessions L with hss1
  set sortedNS := List.insertionSort nsLE sched with hsNS
  have hndL : (L.map (fun s => s.code)).Nodup := by
    rw [hL, List.map_map]
    exact hW2
  have hcode : ∀ ns ∈ sched, ∀ e ∈ ns.evs, e.code = ns.sess.code := by
    intro ns hns e he
    obtain ⟨j, hj⟩ := List.mem_iff_getElem?.mp he
    exact (hW1 ns hns j e hj).1
  have hres : ∀ ns ∈ sched, ∃ t, findSession ss1 ns.sess.code = some t ∧
      t.sport = ns.sess.sport ∧ t.starts_at = ns.sess.starts_at := by
    intro ns hns
    refine findSession_resolve L hndL ns.sess ?_
    rw [List.mem_insertionSort]
    exact List.mem_map_of_mem _ hns
  have hstored : ∀ ns ∈ sched, ∀ e ∈ ns.evs,
      evStored ss1 e =
        (ns.sess.starts_at.day, ns.sess.starts_at.minute) := by
    intro ns hns e he
    obtain ⟨t, hfs, _, hst⟩ := hres ns hns
    unfold evStored
    rw [hcode ns hns e he, hfs]
    show (t.starts_at.day, t.starts_at.minute) = _
    rw [hst]
  have hsortedNSle : List.Pairwise nsLE sortedNS :=
    List.sorted_insertionSort nsLE sched
  have hndNS : (sortedNS.map (fun ns => ns.sess.starts_at.utc)).Nodup :=
    ((List.perm_insertionSort nsLE sched).map
      (fun ns => ns.sess.starts_at.utc)).nodup_iff.mpr hD
  have hlt : List.Pairwise nsLT sortedNS :=
    pairwise_nsLT_of_le_nodup hsortedNSle hndNS
  have hmemNS : ∀ ns ∈ sortedNS, ns ∈ sched := fun ns hns =>
    (List.mem_insertionSort nsLE).mp hns
  have hwithin : ∀ ns ∈ sortedNS, List.Pairwise
      (fun a b => lex3LT (eKey ss1 a) (eKey ss1 b)) ns.evs := by
    intro ns hns
    have hns2 := hmemNS ns hns
    have hord : List.Pairwise (fun x y : Event =>
        x.order_in_session < y.order_in_session) ns.evs :=
      pairwise_order_lt_of_orders (fun j e hj => (hW1 ns hns2 j e hj).2)
    refine hord.imp_of_mem ?_
    intro a b ha hb hab
    simp only [lex3LT, eKey]
    refine Or.inr ⟨?_, Or.inr ⟨?_, hab⟩⟩
    · rw [hstored ns hns2 a ha, hstored ns hns2 b hb]
    · rw [hcode ns hns2 a ha, hcode ns hns2 b hb]
  have hcross : List.Pairwise (fun x y : NS => ∀ a ∈ x.evs, ∀ b ∈ y.evs,
      lex3LT (eKey ss1 a) (eKey ss1 b)) sortedNS := by
    refine hlt.imp_of_mem ?_
    intro x y hx hy hxy a ha b hb
    simp only [lex3LT, eKey]
    left
    rw [hstored x (hmemNS x hx) a ha, hstored y (hmemNS y hy) b hb]
    exact pairLT_of_utc_lt
      ((hoff x (hmemNS x hx)).trans (hoff y (hmemNS y hy)).symm)
      (hmin x (hmemNS x hx)) (hmin y (hmemNS y hy)) hxy
  have hpairC : List.Pairwise (fun a b => lex3LT (eKey ss1 a) (eKey ss1 b))
      (sortedNS.flatMap (fun ns => ns.evs)) :=
    pairwise_flatMap_evs sortedNS hwithin hcross
  have hpermC : (List.insertionSort (evLE ss1)
      (sched.flatMap (fun ns => ns.evs))).Perm
      (sortedNS.flatMap (fun ns => ns.evs)) := by
    refine (List.perm_insertionSort (evLE ss1)
      (sched.flatMap (fun ns => ns.evs))).trans ?_
    exact List.Perm.flatMap_right (fun ns => ns.evs)
      (List.perm_insertionSort nsLE sched).symm
  have hndC : ((sortedNS.flatMap (fun ns => ns.evs)).map (eKey ss1)).Nodup := by
    have h2 : List.Pairwise (fun a b : Event => eKey ss1 a ≠ eKey ss1 b)
        (sortedNS.flatMap (fun ns => ns.evs)) :=
      hpairC.imp (fun {a b} h => lex3LT_ne h)
    exact List.pairwise_map.mpr h2
  have hndE : ((List.insertionSort (evLE ss1)
      (sched.flatMap (fun ns => ns.evs))).map (eKey ss1)).Nodup :=
    ((hpermC.map (eKey ss1)).nodup_iff).mpr hndC
  have hsortE : List.Pairwise (evLE ss1)
      (List.insertionSort (evLE ss1) (sched.flatMap (fun ns => ns.evs))) :=
    List.sorted_insertionSort (evLE ss1) (sched.flatMap (fun ns => ns.evs))
  have hstrictE : List.Pairwise
      (fun a b => lex3LT (eKey ss1 a) (eKey ss1 b))
      (List.insertionSort (evLE ss1) (sched.flatMap (fun ns => ns.evs))) := by
    have hne : List.Pairwise (fun a b : Event => eKey ss1 a ≠ eKey ss1 b)
        (List.insertionSort (evLE ss1) (sched.flatMap (fun ns => ns.evs))) :=
      List.pairwise_map.mp hndE
    exact (hsortE.and hne).imp
      (fun {a b} hab => lex3LT_of_LE_of_ne hab.1 hab.2)
  haveI : IsAntisymm Event (fun a b => lex3LT (eKey ss1 a) (eKey ss1 b)) :=
    ⟨fun a b h1 h2 => (lex3LT_asymm h1 h2).elim⟩
  exact List.eq_of_perm_of_sorted hpermC hstrictE hpairC

/-- The database event loop over a whole block list. -/
theorem numberEventsGo_blocks (ss : List Session) (T : String → Nat)
    (M : Nat) :
    ∀ (blocks : List NS) (en : Nat) (c : String → Nat),
      (∀ ns ∈ blocks, ∀ e ∈ ns.evs, e.code = ns.sess.code) →
      (∀ ns ∈ blocks, ∃ s, findSession ss ns.sess.code = some s ∧
        s.sport = ns.sess.sport) →
      numberEventsGo ss T M (blocks.flatMap (fun ns => ns.evs)) (en + 1) c =
        canonEvents T M blocks en c := by
  intro blocks
  induction blocks with
  | nil => intro en c _ _; rfl
  | cons ns rest ih =>
    intro en c hcode hres
    obtain ⟨s, hfs, hsp⟩ := hres ns (List.mem_cons_self ns rest)
    rw [List.flatMap_cons]
    rw [numberEventsGo_block ss T M ns.sess.code s hfs ns.evs
      (rest.flatMap (fun x => x.evs)) en c
      (hcode ns (List.mem_cons_self ns rest))]
    rw [hsp]
    rw [ih (en + ns.evs.length)
      (setCount c ns.sess.sport (c ns.sess.sport + ns.evs.length))
      (fun x hx => hcode x (List.mem_cons_of_mem ns hx))
      (fun x hx => hres x (List.mem_cons_of_mem ns hx))]
    rfl

/-- Per-sport counts over flattened blocks whose events resolve to the
owning session. -/
theorem countP_flatMap_evSport (ss : List Session) (k : String) :
    ∀ (blocks : List NS),
      (∀ ns ∈ blocks, ∀ e ∈ ns.evs,
        evSportIs ss k e = (ns.sess.sport == k)) →
      (blocks.flatMap (fun ns => ns.evs)).countP (evSportIs ss k) =
        (blocks.map (fun ns =>
          if ns.sess.sport == k then ns.evs.length else 0)).sum := by
  intro blocks
  induction blocks with
  | nil => intro _; rfl
  | cons ns rest ih =>
    intro h
    rw [List.flatMap_cons, List.countP_append, List.map_cons, List.sum_cons]
    rw [ih (fun x hx => h x (List.mem_cons_of_mem ns hx))]
    congr 1
    by_cases hsp : (ns.sess.sport == k) = true
    · rw [if_pos hsp]
      apply List.countP_eq_length.mpr
      intro e he
      rw [h ns (List.mem_cons_self ns rest) e he, hsp]
    · have hsp2 : (ns.sess.sport == k) = false := by
        simpa using hsp
      rw [if_neg (by simp [hsp2])]
      apply List.countP_eq_zero.mpr
      intro e he
      rw [h ns (List.mem_cons_self ns rest) e he, hsp2]
      simp

/-- The mixed-timezone schedule for the C10 counterexample: the 09:30
Pacific and the 10:00 Central session, with no events. -/
def c10mixed : List NS :=
  [{ sess := c2mixA, evs := [] }, { sess := c2mixB, evs := [] }]

/-- C10 counterexample: the two start instants are distinct and the codes
unique, yet `_compute_numbering` numbers the Pacific session first (its
stored wall clock 09:30 sorts before 10:00) while `Schedule.recount`
numbers the Central session first (its instant 15:00Z precedes 16:30Z), so
the two passes assign different session_number values and the claimed
equivalence fails on this input. -/
theorem C10_counterexample :
    c2mixA.starts_at.utc ≠ c2mixB.starts_at.utc ∧
    (c10mixed.map (fun ns => ns.sess.code)).Nodup ∧
    (computeNumbering (flatStore c10mixed)).sessions.map
        (fun s => (s.code, s.session_number)) =
      [("A1", some 1), ("B1", some 2)] ∧
    ((recount c10mixed).map (fun ns => ns.sess)).map
        (fun s => (s.code, s.session_number)) =
      [("B1", some 1), ("A1", some 2)] ∧
    (computeNumbering (flatStore c10mixed)).sessions ≠
      (recount c10mixed).map (fun ns => ns.sess) := by
  refine ⟨by decide, by decide, by decide, by decide, by decide⟩

/-- C10 (amended): for a single-timezone schedule — all sessions carry one
shared UTC offset and in-range wall-clock minutes — whose sessions have
pairwise-distinct start instants, together with the store invariants that
session codes are unique (the primary key) and that every event row
carries its owning session's code and its 1-based position, the in-memory
`Schedule.recount` of read.py and the database `_compute_numbering` of
parsing.py assign identical values to all four session counter fields and
all four event counter fields: the numbered store equals the recounted
schedule projected to its session rows and flattened event rows. recount
sorts by start instant while the store orders by the local wall-clock text
SQLite keeps (offset discarded), so one shared offset plus distinct
instants is what makes the two orders agree. -/
theorem C10_recount_matches_db (sched : List NS) (o : Nat)
    (hoff : ∀ ns ∈ sched, ns.sess.starts_at.offset = o)
    (hmin : ∀ ns ∈ sched, ns.sess.starts_at.minute < 1440)
    (hW1 : ∀ ns ∈ sched, ∀ (j : Nat) (e : Event), ns.evs[j]? = some e →
      e.code = ns.sess.code ∧ e.order_in_session = j + 1)
    (hW2 : (sched.map (fun ns => ns.sess.code)).Nodup)
    (hD : (sched.map (fun ns => ns.sess.starts_at.utc)).Nodup) :
    (computeNumbering (flatStore sched)).sessions =
      (recount sched).map (fun ns => ns.sess) ∧
    (computeNumbering (flatStore sched)).events =
      (recount sched).flatMap (fun ns => ns.evs) := by
  set L := sched.map (fun ns => ns.sess) with hL
  set ss1 := computeNumberingSessions L with hss1
  set sortedNS := List.insertionSort nsLE sched with hsNS
  set flatE := sched.flatMap (fun ns => ns.evs) with hflatE
  have hndL : (L.map (fun s => s.code)).Nodup := by
    rw [hL, List.map_map]
    exact hW2
  have hcode : ∀ ns ∈ sched, ∀ e ∈ ns.evs, e.code = ns.sess.code := by
    intro ns hns e he
    obtain ⟨j, hj⟩ := List.mem_iff_getElem?.mp he
    exact (hW1 ns hns j e hj).1
  have hres : ∀ ns ∈ sched, ∃ t, findSession ss1 ns.sess.code = some t ∧
      t.sport = ns.sess.sport ∧ t.starts_at = ns.sess.starts_at := by
    intro ns hns
    refine findSession_resolve L hndL ns.sess ?_
    rw [List.mem_insertionSort]
    exact List.mem_map_of_mem _ hns
  have hmemNS : ∀ ns ∈ sortedNS, ns ∈ sched := fun ns hns =>
    (List.mem_insertionSort nsLE).mp hns
  have hjoin : ∀ e ∈ flatE, joinable ss1 e = true := by
    intro e he
    obtain ⟨ns, hns, he2⟩ := List.mem_flatMap.mp he
    obtain ⟨t, hfs, _, _⟩ := hres ns hns
    unfold joinable
    rw [hcode ns hns e he2, hfs]
    rfl
  have hfilter1 : flatE.filter (joinable ss1) = flatE :=
    List.filter_eq_self.mpr hjoin
  have hfilter2 : flatE.filter (fun e => !joinable ss1 e) = [] :=
    List.filter_eq_nil_iff.mpr (fun e he => by simp [hjoin e he])
  set totS := sched.length with htotS
  set totE := flatE.length with htotE
  set r := recountGo totS totE sortedNS 1 0 (fun _ => 0) (fun _ => 0) with hr
  have hrecount : recount sched = backfill r.2.1 r.2.2 r.1 := rfl
  have hkey1 : sortedNS.map (fun ns => ns.sess) =
      List.insertionSort sessLE L :=
    sorted_map_sess_eq sched o hoff hmin hD
  -- session side
  have hsess_r : (recount sched).map (fun ns => ns.sess) =
      numberSessionsGo r.2.1 totS (sortedNS.map (fun ns => ns.sess)) 1
        (fun _ => 0) := by
    rw [hrecount]
    exact recount_sessions_eq totS totE r.2.1 r.2.2 sortedNS 1 0 (fun _ => 0)
      (fun _ => 0)
  have hS : r.2.1 = sportTotalsS (List.insertionSort sessLE L) := by
    funext k
    rw [hr]
    rw [recountGo_final_sc totS totE sortedNS 1 0 (fun _ => 0) (fun _ => 0) k]
    rw [sportTotalsS_eq_countP, ← hkey1, List.countP_map]
    rw [Nat.zero_add]
    rfl
  have hlenS : totS = (List.insertionSort sessLE L).length := by
    rw [List.length_insertionSort, hL, List.length_map, htotS]
  have hsess : (computeNumbering (flatStore sched)).sessions =
      (recount sched).map (fun ns => ns.sess) := by
    rw [hsess_r, hkey1, hS, hlenS]
    rfl
  -- event side
  have hev_r : (recount sched).flatMap (fun ns => ns.evs) =
      canonEvents r.2.2 totE sortedNS 0 (fun _ => 0) := by
    rw [hrecount]
    exact recount_events_eq totS totE r.2.1 r.2.2 sortedNS 1 0 (fun _ => 0)
      (fun _ => 0)
  have hsortC : List.insertionSort (evLE ss1) (flatE.filter (joinable ss1)) =
      sortedNS.flatMap (fun ns => ns.evs) := by
    rw [hfilter1]
    exact sorted_events_eq sched o hoff hmin hW1 hW2 hD
  have hevDB : (computeNumbering (flatStore sched)).events =
      numberEventsGo ss1
        (eventSportTotals ss1 (sortedNS.flatMap (fun ns => ns.evs)))
        (sortedNS.flatMap (fun ns => ns.evs)).length
        (sortedNS.flatMap (fun ns => ns.evs)) 1 (fun _ => 0) := by
    show computeNumberingEvents ss1 flatE = _
    simp only [computeNumberingEvents]
    rw [hsortC, hfilter2, List.append_nil]
  have hcodeNS : ∀ ns ∈ sortedNS, ∀ e ∈ ns.evs, e.code = ns.sess.code :=
    fun ns hns => hcode ns (hmemNS ns hns)
  have hresNS : ∀ ns ∈ sortedNS, ∃ s, findSession ss1 ns.sess.code = some s ∧
      s.sport = ns.sess.sport := by
    intro ns hns
    obtain ⟨t, hfs, hsp, _⟩ := hres ns (hmemNS ns hns)
    exact ⟨t, hfs, hsp⟩
  have hblocks : numberEventsGo ss1
      (eventSportTotals ss1 (sortedNS.flatMap (fun ns => ns.evs)))
      (sortedNS.flatMap (fun ns => ns.evs)).length
      (sortedNS.flatMap (fun ns => ns.evs)) 1 (fun _ => 0) =
      canonEvents
        (eventSportTotals ss1 (sortedNS.flatMap (fun ns => ns.evs)))
        (sortedNS.flatMap (fun ns => ns.evs)).length sortedNS 0
        (fun _ => 0) :=
    numberEventsGo_blocks ss1
      (eventSportTotals ss1 (sortedNS.flatMap (fun ns => ns.evs)))
      (sortedNS.flatMap (fun ns => ns.evs)).length sortedNS 0 (fun _ => 0)
      hcodeNS hresNS
  have hevsport : ∀ k : String, ∀ ns ∈ sortedNS, ∀ e ∈ ns.evs,
      evSportIs ss1 k e = (ns.sess.sport == k) := by
    intro k ns hns e he
    obtain ⟨t, hfs, hsp⟩ := hresNS ns hns
    unfold evSportIs
    rw [hcodeNS ns hns e he, hfs]
    show (t.sport == k) = (ns.sess.sport == k)
    rw [hsp]
  have hT : eventSportTotals ss1 (sortedNS.flatMap (fun ns => ns.evs)) =
      r.2.2 := by
    funext k
    rw [eventSportTotals_eq_countP]
    rw [countP_flatMap_evSport ss1 k sortedNS (hevsport k)]
    rw [hr]
    rw [recountGo_final_ec totS totE sortedNS 1 0 (fun _ => 0) (fun _ => 0) k]
    rw [Nat.zero_add]
  have hM : (sortedNS.flatMap (fun ns => ns.evs)).length = totE := by
    rw [htotE, hflatE]
    exact (List.Perm.flatMap_right (fun ns => ns.evs)
      (List.perm_insertionSort nsLE sched)).length_eq
  refine ⟨hsess, ?_⟩
  rw [hevDB, hblocks, hT, hM, hev_r]

/-- A concrete event row for the C10 witness. -/
def c10ev : Event :=
  { code := "A1", sex := "Men", description := "Final", type := "Final",
    order_in_session := 1, total_in_session := 1 }

/-- A concrete one-session schedule for the C10 witness. -/
def c10sched : List NS :=
  [{ sess := demoSession ("A1") ("Swim") 60, evs := [c10ev] }]

/-- C10 witness: the amended equivalence applied to a concrete one-timezone
schedule, with the shared-offset, in-range-minute, well-formedness and
distinct-start hypotheses discharged. -/
theorem C10_witness :
    (computeNumbering (flatStore c10sched)).sessions =
      (recount c10sched).map (fun ns => ns.sess) ∧
    (computeNumbering (flatStore c10sched)).events =
      (recount c10sched).flatMap (fun ns => ns.evs) :=
  C10_recount_matches_db c10sched 420 (by decide) (by decide)
    (by
      intro ns hns j e hj
      simp only [c10sched, List.mem_singleton] at hns
      subst hns
      cases j with
      | zero =>
        simp only [List.getElem?_cons_zero, Option.some.injEq] at hj
        subst hj
        exact ⟨rfl, rfl⟩
      | succ j => simp at hj)
    (by decide) (by decide)

end LA28
